import Mathlib

/-!
Verification of the path-structure / CSV-parsing utilities of the
Vanets-ns3-fb repository (scripts under `scripts/draw_coords`,
`scripts/drawCoords` and `scripts/createSimpleScenarios`).

Python strings are modelled as `List Char` (`PyStr`); Python exceptions as
an explicit `PyErr` error type threaded through `Except`.
-/

/-- Python strings are modelled as lists of characters. -/
abbrev PyStr := List Char

/-- Convert a Lean string literal to the `PyStr` model. -/
def pstr (s : String) : PyStr := s.data

/-- Python exception kinds that the embedded code can raise. -/
inductive PyErr where
  | valueError
  | osError
  | indexError
  | keyError
  | stopIteration
  | typeError
  | attributeError
  | unboundLocalError
  deriving Repr, DecidableEq

instance {ε α : Type} [DecidableEq ε] [DecidableEq α] : DecidableEq (Except ε α) := fun
  | .error e, .error f =>
    if h : e = f then .isTrue (by rw [h]) else .isFalse (by simp [h])
  | .error _, .ok _ => .isFalse (by simp)
  | .ok _, .error _ => .isFalse (by simp)
  | .ok a, .ok b =>
    if h : a = b then .isTrue (by rw [h]) else .isFalse (by simp [h])

/-- Python `s.split(sep)` for a one-character separator `sep`:
splits on every occurrence and keeps empty chunks
(`"".split("-") == [""]`, `"a--b".split("-") == ["a","","b"]`). -/
def splitOnChar (sep : Char) : PyStr → List PyStr
  | [] => [[]]
  | c :: cs =>
    match splitOnChar sep cs with
    | [] => [[]]
    | h :: t => if c = sep then [] :: h :: t else (c :: h) :: t

/-- `"/".join(parts)`-style joining with a one-character separator
(inverse of `splitOnChar` on separator-free chunks). -/
def joinChar (sep : Char) : List PyStr → PyStr
  | [] => []
  | [s] => s
  | s :: ss => s ++ sep :: joinChar sep ss

/-- The whitespace characters stripped by Python `str.strip()`. -/
def isPySpace (c : Char) : Bool :=
  c = ' ' || c = '\t' || c = '\n' || c = '\x0d' || c = '\x0b' || c = '\x0c'

/-- Drop trailing characters satisfying `p` (used for `rstrip`). -/
def rdropWhile (p : Char → Bool) (s : PyStr) : PyStr :=
  (s.reverse.dropWhile p).reverse

/-- Python `str.strip()` with no argument: strip whitespace on both ends. -/
def pyStrip (s : PyStr) : PyStr := rdropWhile isPySpace (s.dropWhile isPySpace)

/-- Python `str.strip(chars)`: strip any of the given characters on both ends. -/
def pyStripChars (cs : List Char) (s : PyStr) : PyStr :=
  rdropWhile (· ∈ cs) (s.dropWhile (· ∈ cs))

/-- Python `str.rstrip(chars)`: strip any of the given characters on the right. -/
def pyRstripChars (cs : List Char) (s : PyStr) : PyStr :=
  rdropWhile (· ∈ cs) s

/-- Python `s.endswith(t)`. -/
def pyEndswith (s t : PyStr) : Bool := t.isSuffixOf s

/-- Python `s.replace(old, new)` for one-character `old` and `new`. -/
def replaceChar (old new : Char) (s : PyStr) : PyStr :=
  s.map fun c => if c = old then new else c

/-- Python `s.replace(old, "")` for a one-character `old`: delete every
occurrence of that character. -/
def removeChar (old : Char) (s : PyStr) : PyStr := s.filter (· ≠ old)

/-- ASCII decimal digit (model of the regex class `\d`; the repository's
inputs are ASCII, so the Unicode digits Python's `re` would also accept
are not modelled). -/
def isAsciiDigit (c : Char) : Bool := '0' ≤ c && c ≤ '9'

/-- The regex class `[A-Za-z]`. -/
def isAsciiAlpha (c : Char) : Bool :=
  ('A' ≤ c && c ≤ 'Z') || ('a' ≤ c && c ≤ 'z')

/-- Numeric value of an ASCII digit character. -/
def digitVal (c : Char) : Nat := c.toNat - 48

/-- Value of a string of ASCII digits, read in base 10. -/
def digitsVal (s : PyStr) : Nat := s.foldl (fun a c => 10 * a + digitVal c) 0

/-- The decimal digit character for `d < 10`. -/
def digitChar : Nat → Char
  | 0 => '0' | 1 => '1' | 2 => '2' | 3 => '3' | 4 => '4'
  | 5 => '5' | 6 => '6' | 7 => '7' | 8 => '8' | _ => '9'

/-- Fuel-based helper for decimal rendering (structural recursion so that
it evaluates by kernel reduction; `fuel > n` always suffices). -/
def natToDecAux : Nat → Nat → PyStr
  | 0, _ => []
  | fuel + 1, n =>
    if n < 10 then [digitChar n]
    else natToDecAux fuel (n / 10) ++ [digitChar (n % 10)]

/-- Python `str(n)` for a non-negative integer `n`: decimal rendering. -/
def natToDec (n : Nat) : PyStr := natToDecAux (n + 1) n

/-- Python `int(s)` on a string argument: optional surrounding whitespace,
optional sign, then decimal digits, with `_` allowed only between digits
(CPython's grammar for `int`, restricted to ASCII). Raises `ValueError`
otherwise. -/
def pyIntParse (s : PyStr) : Except PyErr Int :=
  let t := pyStrip s
  let (sign, rest) : Int × PyStr :=
    match t with
    | '+' :: r => (1, r)
    | '-' :: r => (-1, r)
    | r => (1, r)
  if (splitOnChar '_' rest).all fun g => !g.isEmpty && g.all isAsciiDigit then
    .ok (sign * (digitsVal (rest.filter (· ≠ '_')) : Int))
  else .error .valueError

/-- The exact rational `(if neg then -digits else digits) * 10 ^ exp`,
built with `Rat.divInt` so that it evaluates by kernel reduction. -/
def decimalValue (neg : Bool) (digits : Nat) (exp : Int) : ℚ :=
  let n : Int := if neg then -(Int.ofNat digits) else Int.ofNat digits
  if 0 ≤ exp then Rat.divInt (n * Int.ofNat (10 ^ exp.toNat)) 1
  else Rat.divInt n (Int.ofNat (10 ^ (-exp).toNat))

/-- Python `float(s)` on a string argument, modelled over `ℚ`:
optional whitespace and sign, then `d+ | d+.d* | .d+`, with an optional
`e`/`E` exponent part. The `inf`/`nan` literals and `_` digit separators
of CPython are outside the model (the repository's data never contains
them); IEEE-754 rounding is modelled by exact rational arithmetic. -/
def pyFloatParse (s : PyStr) : Except PyErr ℚ :=
  let t := pyStrip s
  let (neg, rest) : Bool × PyStr :=
    match t with
    | '+' :: r => (false, r)
    | '-' :: r => (true, r)
    | r => (false, r)
  let mantExp := splitOnChar 'e' (rest.map fun c => if c = 'E' then 'e' else c)
  -- a mantissa parses to (digit string with the dot removed, #fraction digits)
  let parseMant : PyStr → Except PyErr (Nat × Nat) := fun m =>
    match splitOnChar '.' m with
    | [a] =>
      if !a.isEmpty && a.all isAsciiDigit then .ok (digitsVal a, 0)
      else .error .valueError
    | [a, b] =>
      if (!a.isEmpty || !b.isEmpty) && a.all isAsciiDigit && b.all isAsciiDigit
      then .ok (digitsVal (a ++ b), b.length)
      else .error .valueError
    | _ => .error .valueError
  let parseExp : PyStr → Except PyErr Int := fun x =>
    let (eneg, erest) : Bool × PyStr :=
      match x with
      | '+' :: r => (false, r)
      | '-' :: r => (true, r)
      | r => (false, r)
    if !erest.isEmpty && erest.all isAsciiDigit then
      .ok (if eneg then -(Int.ofNat (digitsVal erest)) else Int.ofNat (digitsVal erest))
    else .error .valueError
  match mantExp with
  | [m] => do
    let (d, f) ← parseMant m
    .ok (decimalValue neg d (-(Int.ofNat f)))
  | [m, x] => do
    let (d, f) ← parseMant m
    let e ← parseExp x
    .ok (decimalValue neg d (e - Int.ofNat f))
  | _ => .error .valueError

/-! ### Value classes `Vector` and `Edge`

From `scripts/draw_coords/coord_utils.py` (lines 20-112).  The constructors
call `float(...)` / `int(...)` on their arguments, which can raise
`ValueError`; construction is therefore modelled by `mkVector` / `mkEdge`
returning `Except`. -/

/-- The `Vector` class: a 3D point; value equality by coordinate triple. -/
structure Vector where
  x : ℚ
  y : ℚ
  z : ℚ
  deriving Repr, DecidableEq

/-- `Vector(x, y, z)` applied to string arguments (`float` conversions). -/
def mkVector (x y z : PyStr) : Except PyErr Vector :=
  match pyFloatParse x with
  | .error e => .error e
  | .ok a =>
    match pyFloatParse y with
    | .error e => .error e
    | .ok b =>
      match pyFloatParse z with
      | .error e => .error e
      | .ok c => .ok ⟨a, b, c⟩

/-- The `Edge` class of `coord_utils.py`: a directed transmission event. -/
structure Edge where
  source : Int
  destination : Int
  phase : Int
  deriving Repr, DecidableEq

/-- `Edge(x, y, z)` applied to string arguments (`int` conversions). -/
def mkEdge (x y z : PyStr) : Except PyErr Edge :=
  match pyIntParse x with
  | .error e => .error e
  | .ok a =>
    match pyIntParse y with
    | .error e => .error e
    | .ok b =>
      match pyIntParse z with
      | .error e => .error e
      | .ok c => .ok ⟨a, b, c⟩

/-! ### Transmission-vector and transmission-map cell parsers

From `scripts/draw_coords/coord_utils.py` (`parse_transmission_vector`,
lines 365-387, and `parse_transmission_map`, lines 337-362). -/

/-- The per-edge body of the `parse_transmission_vector` loop:
`raw_edge.split("-")`, index `[1]`, `split("*")`, index `[1]`,
`Edge(source, destination, phase)`.  Indexing an absent element raises
`IndexError`. -/
def parseRawEdge (rawEdge : PyStr) : Except PyErr Edge :=
  match splitOnChar '-' rawEdge with
  | [] => .error .indexError
  | source :: afterDashRest =>
    match afterDashRest with
    | [] => .error .indexError
    | second :: _ =>
      match splitOnChar '*' second with
      | [] => .error .indexError
      | destination :: afterStarRest =>
        match afterStarRest with
        | [] => .error .indexError
        | phase :: _ => mkEdge source destination phase

/-- The loop of `parse_transmission_vector`: skip empty chunks, parse the
rest, append in order; any exception aborts the whole parse. -/
def ptvLoop : List PyStr → Except PyErr (List Edge)
  | [] => .ok []
  | rawEdge :: rest =>
    if rawEdge.length > 0 then
      match parseRawEdge rawEdge with
      | .error e => .error e
      | .ok e =>
        match ptvLoop rest with
        | .error e' => .error e'
        | .ok tail => .ok (e :: tail)
    else ptvLoop rest

/-- `parse_transmission_vector` of `coord_utils.py`: split the cell on `_`
and decode each non-empty chunk as `source-destination*phase`. -/
def parse_transmission_vector (rawTransmissionVector : PyStr) :
    Except PyErr (List Edge) :=
  ptvLoop (splitOnChar '_' rawTransmissionVector)

/-- Python `dict` assignment `d[k] = v`: overwrite in place when the key
exists, append otherwise (insertion order preserved). -/
def dictSet {α : Type} : List (PyStr × α) → PyStr → α → List (PyStr × α)
  | [], k, v => [(k, v)]
  | (k', v') :: rest, k, v =>
    if k' = k then (k', v) :: rest else (k', v') :: dictSet rest k v

/-- The loop of `parse_transmission_map` over the `}`-separated segments:
skip empty segments; split each on `{` (index `[1]` may raise
`IndexError`), take the key before `:`, split the destinations on `;`
dropping empties. -/
def ptmLoop : List PyStr → List (PyStr × List PyStr) →
    Except PyErr (List (PyStr × List PyStr))
  | [], dict => .ok dict
  | s :: rest, dict =>
    if s.length = 0 then ptmLoop rest dict
    else
      match splitOnChar '{' s with
      | [] => .error .indexError
      | first :: afterOpenRest =>
        match afterOpenRest with
        | [] => .error .indexError
        | destinations :: _ =>
          let keyNode :=
            match splitOnChar ':' first with
            | [] => []
            | k :: _ => k
          let dests := (splitOnChar ';' destinations).filter (·.length ≠ 0)
          ptmLoop rest (dictSet dict keyNode dests)

/-- `parse_transmission_map` of `coord_utils.py`. -/
def parse_transmission_map (rawTransmissionMap : PyStr) :
    Except PyErr (List (PyStr × List PyStr)) :=
  ptmLoop (splitOnChar '}' rawTransmissionMap) []

/-! ### The older duplicated module `scripts/drawCoords/coordUtils.py`

`coordUtils.py` contains near-identical copies of the same helpers
(`Edge`, lines 41-51, and `parseTransmissionVector`, lines 181-192).
They are embedded separately, from their own source text, for the
equivalence claim. -/

namespace coordUtils

/-- The `Edge` class of `coordUtils.py`. -/
structure Edge where
  source : Int
  destination : Int
  phase : Int
  deriving Repr, DecidableEq

/-- `Edge(x, y, z)` of `coordUtils.py` applied to string arguments. -/
def mkEdge (x y z : PyStr) : Except PyErr Edge :=
  match pyIntParse x with
  | .error e => .error e
  | .ok a =>
    match pyIntParse y with
    | .error e => .error e
    | .ok b =>
      match pyIntParse z with
      | .error e => .error e
      | .ok c => .ok ⟨a, b, c⟩

/-- Per-edge body of the `parseTransmissionVector` loop of `coordUtils.py`. -/
def parseRawEdge (rawEdge : PyStr) : Except PyErr Edge :=
  match splitOnChar '-' rawEdge with
  | [] => .error .indexError
  | source :: afterDashRest =>
    match afterDashRest with
    | [] => .error .indexError
    | second :: _ =>
      match splitOnChar '*' second with
      | [] => .error .indexError
      | destination :: afterStarRest =>
        match afterStarRest with
        | [] => .error .indexError
        | phase :: _ => mkEdge source destination phase

/-- The loop of `parseTransmissionVector` of `coordUtils.py`. -/
def ptvLoop : List PyStr → Except PyErr (List Edge)
  | [] => .ok []
  | rawEdge :: rest =>
    if rawEdge.length > 0 then
      match parseRawEdge rawEdge with
      | .error e => .error e
      | .ok e =>
        match ptvLoop rest with
        | .error e' => .error e'
        | .ok tail => .ok (e :: tail)
    else ptvLoop rest

/-- `parseTransmissionVector` of `coordUtils.py`. -/
def parseTransmissionVector (rawTransmissionVector : PyStr) :
    Except PyErr (List Edge) :=
  ptvLoop (splitOnChar '_' rawTransmissionVector)

end coordUtils

/-- Field-by-field conversion between the two duplicated `Edge` classes. -/
def edgeOfOld (e : coordUtils.Edge) : Edge :=
  ⟨e.source, e.destination, e.phase⟩

/-! ### Mobility-file line handling -/

/-- Python `file.readlines()` / line iteration: split the content after
every newline character, keeping the newline at the end of each line;
a final chunk without a newline is still one line. -/
def pyReadlines : PyStr → List PyStr
  | [] => []
  | c :: cs =>
    if c = '\n' then ['\n'] :: pyReadlines cs
    else
      match pyReadlines cs with
      | [] => [[c]]
      | l :: ls => (c :: l) :: ls

/-- `is_file_complete` of `coord_utils.py` (lines 115-128): enumerate the
lines keeping only the last index `i`, then return `i == 1`.  On an empty
file the loop never runs and the `return` raises (the loop variable was
never assigned). -/
def is_file_complete (content : PyStr) : Except PyErr Bool :=
  let lines := pyReadlines content
  if lines.isEmpty then .error .unboundLocalError
  else .ok (lines.length - 1 == 1)

/-! ### Mobility-file writer and reader -/

/-- `writeNodeToFile` of `scripts/createSimpleScenarios/utils.py`
(lines 7-11): write the 4-line block for one node.  The Python function
receives numbers and renders them with `str`; the model receives the
rendered coordinate tokens and the node id as a natural number. -/
def writeNodeToFile (nodeId : Nat) (x y z : PyStr) : PyStr :=
  (pstr "$node_(" ++ natToDec nodeId ++ pstr ") set X_ " ++ x ++ pstr "\n") ++
  ((pstr "$node_(" ++ natToDec nodeId ++ pstr ") set Y_ " ++ y ++ pstr "\n") ++
  ((pstr "$node_(" ++ natToDec nodeId ++ pstr ") set Z_ " ++ z ++ pstr "\n") ++
  (pstr "$ns_ at 0.0 \"$node_(" ++ natToDec nodeId ++
    pstr ") setdest 0 0 0.00\"\n")))

/-- Writing a list of nodes: concatenation of the per-node blocks
(sequential `f.write` calls). -/
def writeNodesToFile (entries : List (Nat × PyStr × PyStr × PyStr)) : PyStr :=
  (entries.map fun e => writeNodeToFile e.1 e.2.1 e.2.2.1 e.2.2.2).flatten

/-! ## C2: mobility-file writer / reader round trip -/

/-- A coordinate token as rendered by Python `str()` on a number: nonempty,
free of whitespace, and accepted by `float()`. -/
def goodTok (s : PyStr) : Bool :=
  !s.isEmpty && s.all (fun c => !isPySpace c) && (pyFloatParse s).toOption.isSome

/-- The rational value of a token accepted by `float()`. -/
def floatValD (s : PyStr) : ℚ := ((pyFloatParse s).toOption).getD 0

/-- The X line written by `writeNodeToFile`. -/
def mobLineX (nodeId : Nat) (x : PyStr) : PyStr :=
  pstr "$node_(" ++ natToDec nodeId ++ pstr ") set X_ " ++ x ++ pstr "\n"

/-- The Y line written by `writeNodeToFile`. -/
def mobLineY (nodeId : Nat) (y : PyStr) : PyStr :=
  pstr "$node_(" ++ natToDec nodeId ++ pstr ") set Y_ " ++ y ++ pstr "\n"

/-- The Z line written by `writeNodeToFile`. -/
def mobLineZ (nodeId : Nat) (z : PyStr) : PyStr :=
  pstr "$node_(" ++ natToDec nodeId ++ pstr ") set Z_ " ++ z ++ pstr "\n"

/-- The `setdest` line written by `writeNodeToFile`. -/
def mobLine4 (nodeId : Nat) : PyStr :=
  pstr "$ns_ at 0.0 \"$node_(" ++ natToDec nodeId ++ pstr ") setdest 0 0 0.00\"\n"

/-- The lines of the mobility file written for a list of nodes. -/
def mobilityLines (entries : List (Nat × PyStr × PyStr × PyStr)) : List PyStr :=
  (entries.map fun e =>
    [mobLineX e.1 e.2.1, mobLineY e.1 e.2.2.1, mobLineZ e.1 e.2.2.2,
     mobLine4 e.1]).flatten

/-- The scan loop of `parse_node_list` of `coord_utils.py` (lines 704-722),
viewed on the suffix of lines from the current index: a line that does not
split into exactly 4 space tokens is skipped (`count + 1`); otherwise the
node id is cut out of token 0, the X value is token 3, and the next two
lines are consumed unconditionally as the Y and Z lines (`count + 3`),
raising `IndexError` past the end.  Token indexing `split_line[0]` /
`split_line[3]` is guarded by the length-4 check and rendered with `getD`. -/
def pnlLoop : Nat → List PyStr → List (PyStr × Vector) →
    Except PyErr (List (PyStr × Vector))
  | _, [], dict => .ok dict
  | 0, _ :: _, dict => .ok dict
  | fuel + 1, line :: rest, dict =>
    let splitLine := splitOnChar ' ' (pyStrip line)
    if splitLine.length ≠ 4 then pnlLoop fuel rest dict
    else
      match (splitOnChar '_' (splitLine.getD 0 [])).get? 1 with
      | none => .error .indexError
      | some id1 =>
        let idPart := removeChar ')' (removeChar '(' id1)
        let x := pyStrip (splitLine.getD 3 [])
        match rest.get? 0 with
        | none => .error .indexError
        | some yline =>
          match (splitOnChar ' ' yline).get? 3 with
          | none => .error .indexError
          | some ytok =>
            match rest.get? 1 with
            | none => .error .indexError
            | some zline =>
              match (splitOnChar ' ' zline).get? 3 with
              | none => .error .indexError
              | some ztok =>
                match mkVector x (pyStrip ytok) (pyStrip ztok) with
                | .error e => .error e
                | .ok v => pnlLoop fuel (rest.drop 2) (dictSet dict idPart v)

/-- `parse_node_list` of `coord_utils.py`: scan the whole mobility file
into an id → `Vector` dictionary.  The loop consumes at least one line
per iteration, so fuel equal to the number of lines is exact. -/
def parse_node_list (content : PyStr) : Except PyErr (List (PyStr × Vector)) :=
  pnlLoop (pyReadlines content).length (pyReadlines content) []

/-- The scan loop of `find_coords_from_file` of `coord_utils.py`
(lines 208-241): like `parse_node_list` but looking for one id, advancing
one line at a time, and returning `None` when the id is never found. -/
def fcLoop (nodeId : PyStr) : List PyStr → Except PyErr (Option Vector)
  | [] => .ok none
  | line :: rest =>
    let splitLine := splitOnChar ' ' line
    if splitLine.length ≠ 4 then fcLoop nodeId rest
    else
      match (splitOnChar '_' (splitLine.getD 0 [])).get? 1 with
      | none => .error .indexError
      | some id1 =>
        let idPart := removeChar ')' (removeChar '(' id1)
        if idPart = nodeId then
          let x := pyStrip (splitLine.getD 3 [])
          match rest.get? 0 with
          | none => .error .indexError
          | some yline =>
            match (splitOnChar ' ' yline).get? 3 with
            | none => .error .indexError
            | some ytok =>
              match rest.get? 1 with
              | none => .error .indexError
              | some zline =>
                match (splitOnChar ' ' zline).get? 3 with
                | none => .error .indexError
                | some ztok =>
                  match mkVector x (pyStrip ytok) (pyStrip ztok) with
                  | .error e => .error e
                  | .ok v => .ok (some v)
        else fcLoop nodeId rest

/-- `find_coords_from_file` of `coord_utils.py`. -/
def find_coords_from_file (nodeId : PyStr) (mobilityContent : PyStr) :
    Except PyErr (Option Vector) :=
  fcLoop nodeId (pyReadlines mobilityContent)

/-- `retrieve_coords` of `coord_utils.py` (lines 272-294): resolve each
non-empty id of an underscore-joined list, collecting x and y coordinates
of the ids that are found. -/
def rcLoop (mob : PyStr) : List PyStr → Except PyErr (List ℚ × List ℚ)
  | [] => .ok ([], [])
  | id :: rest =>
    if id.length = 0 then rcLoop mob rest
    else
      match find_coords_from_file id mob with
      | .error e => .error e
      | .ok c =>
        match rcLoop mob rest with
        | .error e => .error e
        | .ok (xs, ys) =>
          match c with
          | some v => .ok (v.x :: xs, v.y :: ys)
          | none => .ok (xs, ys)

/-- `retrieve_coords` of `coord_utils.py`. -/
def retrieve_coords (ids : PyStr) (mob : PyStr) :
    Except PyErr (List ℚ × List ℚ) :=
  rcLoop mob (splitOnChar '_' ids)

/-- `retrieve_coords_as_vector` of `coord_utils.py` (lines 297-316). -/
def rcvLoop (mob : PyStr) : List PyStr → Except PyErr (List Vector)
  | [] => .ok []
  | id :: rest =>
    if id.length = 0 then rcvLoop mob rest
    else
      match find_coords_from_file id mob with
      | .error e => .error e
      | .ok c =>
        match rcvLoop mob rest with
        | .error e => .error e
        | .ok vs =>
          match c with
          | some v => .ok (v :: vs)
          | none => .ok vs

/-- `retrieve_coords_as_vector` of `coord_utils.py`. -/
def retrieve_coords_as_vector (ids : PyStr) (mob : PyStr) :
    Except PyErr (List Vector) :=
  rcvLoop mob (splitOnChar '_' ids)

/-! ### Regex patterns of the path-structure detector

`structure_patterns` of `detect_scenario_from_basepath` (lines 1662-1670).
Each regex is anchored `^...$`; Python's `$` also matches just before one
final newline, so each matcher is the core grammar plus that tolerance.
`\d` and `[A-Za-z]` are modelled over ASCII (the repository's paths are
ASCII). -/

/-- Core of `^[A-Za-z]+-\d+$` (e.g. `Padova-25`). -/
def scenarioCore (s : PyStr) : Bool :=
  let a := s.takeWhile isAsciiAlpha
  match s.drop a.length with
  | c :: ds => c = '-' && !a.isEmpty && !ds.isEmpty && ds.all isAsciiDigit
  | [] => false

/-- Core of `^b[01]$`. -/
def buildingCore : PyStr → Bool
  | [b, c] => b = 'b' && (c = '0' || c = '1')
  | _ => false

/-- Core of `^<letter>\d+$` (shared by `e\d+`, `r\d+`, `j\d+`). -/
def prefixDigitsCore (letter : Char) : PyStr → Bool
  | c :: ds => c = letter && !ds.isEmpty && ds.all isAsciiDigit
  | [] => false

/-- Core of `^cw\[.*\]$` (`.` does not match a newline). -/
def cwCore : PyStr → Bool
  | 'c' :: 'w' :: '[' :: rest =>
    !rest.isEmpty && (rest.getLast? == some ']') &&
      (rest.dropLast.all fun c => c ≠ '\n')
  | _ => false

/-- Core of `^[A-Za-z-]+$` (e.g. `Fast-Broadcast`, `ROFF`). -/
def protocolCore (s : PyStr) : Bool :=
  !s.isEmpty && s.all fun c => isAsciiAlpha c || c = '-'

/-- `re.match(r"^...core...$", s)`: the core grammar, with `$` also
matching just before one final newline. -/
def pyMatchDollar (core : PyStr → Bool) (s : PyStr) : Bool :=
  core s || ((s.getLast? == some '\n') && core s.dropLast)

/-- The `scenario` pattern `^[A-Za-z]+-\d+$` as used by `re.match`. -/
def scenarioPat : PyStr → Bool := pyMatchDollar scenarioCore

/-- The `building` pattern `^b[01]$` as used by `re.match`. -/
def buildingPat : PyStr → Bool := pyMatchDollar buildingCore

/-- The `error_rate` pattern `^e\d+$` as used by `re.match`. -/
def errorRatePat : PyStr → Bool := pyMatchDollar (prefixDigitsCore 'e')

/-- The `txRange` pattern `^r\d+$` as used by `re.match`. -/
def txRangePat : PyStr → Bool := pyMatchDollar (prefixDigitsCore 'r')

/-- The `junction` pattern `^j\d+$` as used by `re.match`. -/
def junctionPat : PyStr → Bool := pyMatchDollar (prefixDigitsCore 'j')

/-- The `cw` pattern `^cw\[.*\]$` as used by `re.match`. -/
def cwPat : PyStr → Bool := pyMatchDollar cwCore

/-- The `protocol` pattern `^[A-Za-z-]+$` as used by `re.match`. -/
def protocolPat : PyStr → Bool := pyMatchDollar protocolCore

/-! ### POSIX path primitives

The scripts run on a POSIX system (`os.sep = "/"`); `os.path.split`,
`dirname`, `basename` and `normpath` are embedded from `posixpath`. -/

/-- `posixpath.split(p)`: cut at the last `/`; the head keeps its
trailing slash only when it consists entirely of slashes. -/
def pySplit (p : PyStr) : PyStr × PyStr :=
  let tail := (p.reverse.takeWhile (· ≠ '/')).reverse
  let head := p.take (p.length - tail.length)
  let head' :=
    if !head.isEmpty && !(head.all (· = '/')) then pyRstripChars ['/'] head
    else head
  (head', tail)

/-- `os.path.dirname`. -/
def pyDirname (p : PyStr) : PyStr := (pySplit p).1

/-- `os.path.basename`. -/
def pyBasename (p : PyStr) : PyStr := (pySplit p).2

/-- One step of `posixpath.normpath`'s component loop: skip empty and
`.` components; append any component other than `..`; `..` is appended
when the path is relative and nothing has been kept yet or the last kept
component is itself `..`, and otherwise pops the last kept component. -/
def normpathFoldStep (initialSlashes : Nat) (acc : List PyStr)
    (comp : PyStr) : List PyStr :=
  if comp = [] || comp = ['.'] then acc
  else if comp ≠ ['.', '.'] || (initialSlashes = 0 && acc = []) ||
      (!acc.isEmpty && acc.getLast? = some ['.', '.']) then acc ++ [comp]
  else if !acc.isEmpty then acc.dropLast
  else acc

/-- The number of leading slashes `posixpath.normpath` preserves: one for
an absolute path, two for exactly two leading slashes (POSIX treats `//`
specially), zero for a relative path. -/
def initialSlashCount (p : PyStr) : Nat :=
  if p.take 1 = ['/'] then
    if p.take 2 = ['/', '/'] && p.take 3 ≠ ['/', '/', '/'] then 2 else 1
  else 0

/-- `posixpath.normpath`: collapse empty and `.` components, resolve `..`,
keep a leading `/` (or exactly two leading slashes), return `.` for an
empty result. -/
def pyNormpath (p : PyStr) : PyStr :=
  if p = [] then ['.']
  else
    let initialSlashes := initialSlashCount p
    let comps := splitOnChar '/' p
    let newComps := comps.foldl (normpathFoldStep initialSlashes) []
    let res := List.replicate initialSlashes '/' ++ joinChar '/' newComps
    if res = [] then ['.'] else res

/-- Length of the longest common prefix of two component lists
(`os.path.commonprefix` on split paths). -/
def commonPrefixLen : List PyStr → List PyStr → Nat
  | a :: as, b :: bs => if a = b then commonPrefixLen as bs + 1 else 0
  | _, _ => 0

/-- Component list of `posixpath.abspath(p)`, dropping empty components.
The working directory is modelled as `/`: for the call sites of this
embedding (`relpath(path, start)` with both arguments relative, or both
absolute, and `start` an ancestor prefix of `path`) the result of
`relpath` is the same for every working directory. -/
def pyAbspathParts (p : PyStr) : List PyStr :=
  (splitOnChar '/'
    (pyNormpath (if p.take 1 = ['/'] then p else '/' :: p))).filter (· ≠ [])

/-- `posixpath.relpath(p, start)`: raises `ValueError` on an empty path;
otherwise `..` steps up to the common prefix followed by the remaining
components of `p`, or `.` when nothing remains. -/
def pyRelpath (p start : PyStr) : Except PyErr PyStr :=
  if p = [] then .error .valueError
  else
    let pl := pyAbspathParts p
    let sl := pyAbspathParts start
    let i := commonPrefixLen sl pl
    let relList := List.replicate (sl.length - i) (pstr "..") ++ pl.drop i
    if relList = [] then .ok ['.']
    else .ok (joinChar '/' relList)

/-! ### The path-structure detector

From `scripts/draw_coords/coord_utils.py`:
`detect_scenario_from_basepath` (lines 1625-1722) and
`validate_structure_parts` (lines 1725-1790). -/

/-- The result dictionary of `detect_scenario_from_basepath`. -/
structure DetectResult where
  scenario_path : PyStr
  scenario_name : PyStr
  sub_path : PyStr
  is_sub_branch : Bool
  structure_valid : Bool
  deriving Repr, DecidableEq

/-- `validate_structure_parts`: empty is valid; the presence of the `cw`
level is decided by whether component 4 matches the cw pattern; then the
first `min(len, len expected)` components must match the expected pattern
sequence (extra components beyond it are allowed). -/
def validate_structure_parts (path_parts : List PyStr) : Bool :=
  if path_parts.isEmpty then true
  else
    let has_cw_level := decide (5 ≤ path_parts.length) && cwPat (path_parts.getD 4 [])
    let expected_patterns : List (PyStr → Bool) :=
      if has_cw_level then
        [buildingPat, errorRatePat, txRangePat, junctionPat, cwPat, protocolPat]
      else
        [buildingPat, errorRatePat, txRangePat, junctionPat, protocolPat]
    (path_parts.zip expected_patterns).all fun pe => pe.2 pe.1

/-- The walk-up loop of `detect_scenario_from_basepath` (lines 1676-1720):
at each ancestor whose basename matches the scenario pattern, compute the
relative path and accept when it is `.` or validates; `ValueError` /
`OSError` from `relpath` are swallowed (`except ... pass`); otherwise move
one level up, stopping at the root or after 10 levels.
`fuel = 10 - levels_back`. -/
def detectLoop (normalized : PyStr) :
    Nat → Nat → PyStr → DetectResult → Except PyErr DetectResult
  | fuel, levelsBack, currentPath, result =>
    if currentPath = [] then .ok result
    else
      match fuel with
      | 0 => .ok result
      | fuel' + 1 =>
        let currentBasename := pyBasename currentPath
        let attempt : Option (Except PyErr DetectResult) :=
          if scenarioPat currentBasename then
            match pyRelpath normalized currentPath with
            | .error e =>
              if e = .valueError || e = .osError then none else some (.error e)
            | .ok relPath =>
              if relPath = ['.'] then
                some (.ok { result with
                            scenario_path := currentPath,
                            scenario_name := currentBasename,
                            sub_path := [],
                            is_sub_branch := false,
                            structure_valid := true })
              else if validate_structure_parts (splitOnChar '/' relPath) then
                some (.ok { result with
                            scenario_path := currentPath,
                            scenario_name := currentBasename,
                            sub_path := relPath,
                            is_sub_branch := decide (0 < levelsBack),
                            structure_valid := true })
              else none
          else none
        match attempt with
        | some r => r
        | none =>
          let parent := pyDirname currentPath
          if parent = currentPath then .ok result
          else detectLoop normalized fuel' (levelsBack + 1) parent result

/-- `detect_scenario_from_basepath`: initial fallback result, path
normalization, then the walk-up loop. -/
def detect_scenario_from_basepath (base_folder : PyStr) :
    Except PyErr DetectResult :=
  let result : DetectResult := {
    scenario_path := base_folder,
    scenario_name := pyBasename (pyRstripChars ['/', '\\'] base_folder),
    sub_path := [],
    is_sub_branch := false,
    structure_valid := false }
  let normalized := pyNormpath (pyRstripChars ['/', '\\'] base_folder)
  let pathParts := splitOnChar '/' normalized
  if pathParts.length = 0 then .ok result
  else detectLoop normalized 10 0 normalized result

/-- The normalized starting point of the walk-up
(`os.path.normpath(base_folder.rstrip("/\\"))`). -/
def normBase (base_folder : PyStr) : PyStr :=
  pyNormpath (pyRstripChars ['/', '\\'] base_folder)

/-- The `k`-th ancestor visited by the walk-up loop: `k`-fold `dirname`. -/
def nthAncestor (normalized : PyStr) (k : Nat) : PyStr :=
  Nat.iterate pyDirname k normalized

/-- The acceptance test the walk-up loop applies to a candidate ancestor:
its basename matches the scenario pattern, and the relative path from it
to the normalized path either is `.` or validates against the expected
structure (a `relpath` exception counts as rejection: the loop swallows
it and keeps walking). -/
def detectAccepts (normalized currentPath : PyStr) : Bool :=
  scenarioPat (pyBasename currentPath) &&
    (match pyRelpath normalized currentPath with
     | .error _ => false
     | .ok relPath =>
       (relPath == ['.']) || validate_structure_parts (splitOnChar '/' relPath))

/-! ### `parse_csv_path_structure`

From `scripts/draw_coords/coord_utils.py`, lines 977-1134. -/

/-- The component dictionary returned by `parse_csv_path_structure`. -/
structure PathComponents where
  scenario : PyStr
  building : PyStr
  error_rate : PyStr
  txRange : PyStr
  junction : PyStr
  cw : PyStr
  protocol : PyStr
  csv_filename : PyStr
  csv_path : PyStr
  deriving Repr, DecidableEq

/-- Python negative indexing `l[-k]` for `k ≤ len l` (the fallback branch
only indexes after a length guard); rendered with `getD`. -/
def negGet (l : List PyStr) (k : Nat) : PyStr := l.getD (l.length - k) []

/-- Body of `parse_csv_path_structure`, before the surrounding
`try/except (IndexError, ValueError)` is applied.  The
`potential_scenario` extracted from the filename at lines 1008-1019 is
never used afterwards (dead code) and is omitted. -/
def pcpsBody (csv_path : PyStr) : Except PyErr (Option PathComponents) :=
  let normalized := replaceChar '\\' '/' csv_path
  let dir_path := pyDirname normalized
  let csv_filename := pyBasename normalized
  if !pyEndswith csv_filename (pstr ".csv") then .ok none
  else
    match detect_scenario_from_basepath dir_path with
    | .error e => .error e
    | .ok detection =>
      if detection.structure_valid then
        let path_parts :=
          if detection.sub_path ≠ [] then splitOnChar '/' detection.sub_path
          else []
        let has_cw_level :=
          decide (5 ≤ path_parts.length) && cwPat (path_parts.getD 4 [])
        let building :=
          if 1 ≤ path_parts.length ∧ path_parts.getD 0 [] ≠ [] then
            path_parts.getD 0 []
          else pstr "unknown"
        let error_rate :=
          if 2 ≤ path_parts.length then path_parts.getD 1 [] else pstr "unknown"
        let txRange :=
          if 3 ≤ path_parts.length then path_parts.getD 2 [] else pstr "unknown"
        let junction :=
          if 4 ≤ path_parts.length then path_parts.getD 3 [] else pstr "unknown"
        let cw :=
          if has_cw_level then
            if 5 ≤ path_parts.length then path_parts.getD 4 [] else pstr "unknown"
          else pstr "none"
        let protocol :=
          if has_cw_level then
            if 6 ≤ path_parts.length then path_parts.getD 5 [] else pstr "unknown"
          else
            if 5 ≤ path_parts.length then path_parts.getD 4 [] else pstr "unknown"
        .ok (some ⟨detection.scenario_name, building, error_rate, txRange,
          junction, cw, protocol, csv_filename, csv_path⟩)
      else
        let path_parts := splitOnChar '/' normalized
        if 8 ≤ path_parts.length ∧ cwPat (negGet path_parts 3) then
          .ok (some ⟨negGet path_parts 8, negGet path_parts 7,
            negGet path_parts 6, negGet path_parts 5, negGet path_parts 4,
            negGet path_parts 3, negGet path_parts 2, csv_filename, csv_path⟩)
        else if 7 ≤ path_parts.length then
          .ok (some ⟨negGet path_parts 7, negGet path_parts 6,
            negGet path_parts 5, negGet path_parts 4, negGet path_parts 3,
            pstr "none", negGet path_parts 2, csv_filename, csv_path⟩)
        else .ok none

/-- `parse_csv_path_structure`: the body with
`except (IndexError, ValueError): return None`. -/
def parse_csv_path_structure (csv_path : PyStr) :
    Except PyErr (Option PathComponents) :=
  match pcpsBody csv_path with
  | .error .indexError => .ok none
  | .error .valueError => .ok none
  | r => r

/-! ### CSV result parser (`parse_file`) and batch counting

`parse_file` of `coord_utils.py`: the module defines it twice (lines
393-466 and 469-542); the second definition shadows the first and is the
one embedded (it strips quotes as well as whitespace from column names).
A CSV file is modelled as the list of its rows as produced by
`csv.reader`, each row a list of cell strings. -/

/-- One row of a CSV file. -/
abbrev CsvRow := List PyStr

/-- A CSV file: its rows. -/
abbrev CsvFile := List CsvRow

/-- `dict(zip(fieldnames, row))` with `restval = None` for missing cells,
as built by `csv.DictReader.__next__`.  The `restkey = None` entry that
collects extra cells is dropped: its key is `None`, which the string
lookups of `parse_file` can never hit. -/
def dictFromZip (fieldnames row : List PyStr) :
    List (PyStr × Option PyStr) :=
  let base := (fieldnames.zip row).foldl
    (fun d kv => dictSet d kv.1 (some kv.2)) []
  if row.length < fieldnames.length then
    (fieldnames.drop row.length).foldl (fun d k => dictSet d k none) base
  else base

/-- `next(csv.DictReader(file))`: the first row gives the field names;
blank rows are skipped; with no data row left, `StopIteration` is raised
(also when the file is completely empty). -/
def dictReaderNext (rows : CsvFile) :
    Except PyErr (List (PyStr × Option PyStr)) :=
  match rows with
  | [] => .error .stopIteration
  | fieldnames :: rest =>
    match rest.dropWhile (· = []) with
    | [] => .error .stopIteration
    | row :: _ => .ok (dictFromZip fieldnames row)

/-- The key-normalizing dict comprehension of `parse_file` (line 501):
`{key.strip().strip('"'): value for key, value in raw_row.items()}`. -/
def stripKeys (d : List (PyStr × Option PyStr)) :
    List (PyStr × Option PyStr) :=
  d.foldl (fun acc kv => dictSet acc (pyStripChars ['"'] (pyStrip kv.1)) kv.2) []

/-- Python `d[k]` on the row dictionary: `KeyError` when absent. -/
def dictLookup {α : Type} (d : List (PyStr × α)) (k : PyStr) :
    Except PyErr α :=
  match d.find? (fun kv => kv.1 = k) with
  | some kv => .ok kv.2
  | none => .error .keyError

/-- A cell value that must be a string: a `None` cell (a row shorter than
the header) raises at its use site (`TypeError` for `int`/`float`,
`AttributeError` for `.split`). -/
def asStr (v : Option PyStr) (e : PyErr) : Except PyErr PyStr :=
  match v with
  | some s => .ok s
  | none => .error e

/-- The record assembled by `parse_file` (its 14-tuple return value). -/
structure ParseFileResult where
  tx_range : Int
  starting_x : ℚ
  starting_y : ℚ
  starting_vehicle : Int
  vehicle_distance : Int
  x_received_coords : List ℚ
  y_received_coords : List ℚ
  x_node_coords : List ℚ
  y_node_coords : List ℚ
  transmission_map : List (PyStr × List PyStr)
  received_coords_on_circ : List Vector
  received_on_circ_ids : List PyStr
  transmission_vector : List Edge
  node_ids : List PyStr
  deriving Repr, DecidableEq

/-- `parse_file` of `coord_utils.py` (second definition, lines 469-542):
read the first data row through `DictReader`, normalize the column names,
extract and convert the columns, then decode the embedded mini-languages,
in source order. -/
def parse_file (rows : CsvFile) (mob : PyStr) : Except PyErr ParseFileResult := do
  let raw ← dictReaderNext rows
  let row := stripKeys raw
  let txRangeCell ← dictLookup row (pstr "Actual Range")
  let tx_range ← pyIntParse (← asStr txRangeCell .typeError)
  let startingXCell ← dictLookup row (pstr "Starting x")
  let starting_x ← pyFloatParse (← asStr startingXCell .typeError)
  let startingYCell ← dictLookup row (pstr "Starting y")
  let starting_y ← pyFloatParse (← asStr startingYCell .typeError)
  let startingNodeCell ← dictLookup row (pstr "Starting node")
  let starting_vehicle ← pyIntParse (← asStr startingNodeCell .typeError)
  let vehicleDistanceCell ← dictLookup row (pstr "Vehicle distance")
  let vehicle_distance ← pyIntParse (← asStr vehicleDistanceCell .typeError)
  let received_ids ← dictLookup row (pstr "Received node ids")
  let raw_node_ids ← dictLookup row (pstr "Node ids")
  let raw_transmission_map ← dictLookup row (pstr "Transmission map")
  let received_on_circ_ids ← dictLookup row (pstr "Received on circ nodes")
  let raw_transmission_vector ← dictLookup row (pstr "Transmission vector")
  let rni ← asStr raw_node_ids .attributeError
  let node_ids := (splitOnChar '_' rni).filter (· ≠ [])
  let ri ← asStr received_ids .attributeError
  let xyReceived ← retrieve_coords ri mob
  let xyNode ← retrieve_coords rni mob
  let roc ← asStr received_on_circ_ids .attributeError
  let received_coords_on_circ ← retrieve_coords_as_vector roc mob
  let received_on_circ ← pure ((splitOnChar '_' roc).filter (· ≠ []))
  let rtm ← asStr raw_transmission_map .attributeError
  let transmission_map ← parse_transmission_map rtm
  let rtv ← asStr raw_transmission_vector .attributeError
  let transmission_vector ← parse_transmission_vector rtv
  .ok ⟨tx_range, starting_x, starting_y, starting_vehicle, vehicle_distance,
    xyReceived.1, xyReceived.2, xyNode.1, xyNode.2, transmission_map,
    received_coords_on_circ, received_on_circ, transmission_vector, node_ids⟩

/-- The per-file statistics kept by `generic_process_batch`
(`coord_utils.py`, lines 2064-2139): every file increments
`processed_count`, a `True` return from the plot function increments
`successful_count`, and `failed_count = processed - successful`;
a failing file never stops the loop. -/
structure BatchStats where
  processed : Nat
  successful : Nat
  failed : Nat
  deriving Repr, DecidableEq

/-- The counting skeleton of the `generic_process_batch` loop, abstracted
over the per-file plot call (the per-file config/output-path bookkeeping
is filesystem I/O and is out of scope; files skipped by `validate_paths`
simply correspond to a `false` outcome of `process`, matching the tally:
they are processed and not successful).  The loop runs over the list
produced by the `find_csv_files` discovery phase, whose per-directory
filter is modelled below by `find_csv_files_dir`. -/
def generic_process_batch_counts {α : Type} (process : α → Bool)
    (files : List α) : BatchStats :=
  { processed := files.length,
    successful := files.countP process,
    failed := files.length - files.countP process }

/-- The parse phase of the per-file plot function
(`draw_coords/draw_coverage.py`, lines 69-88): `parse_file` wrapped in
`try/except Exception: return False`; the subsequent plotting/saving
phase is abstracted by `plotOk`. -/
def draw_coverage_process (plotOk : ParseFileResult → Bool) (mob : PyStr)
    (rows : CsvFile) : Bool :=
  match parse_file rows mob with
  | .error _ => false
  | .ok r => plotOk r


/-- `os.path.join` (posixpath) for two components: an absolute second
component replaces the first; otherwise a slash is inserted unless the
first part is empty or already ends in a slash. -/
def pyJoin (a b : PyStr) : PyStr :=
  match b with
  | '/' :: _ => b
  | _ =>
    match a.getLast? with
    | some '/' => a ++ b
    | _ => if a = [] then b else a ++ '/' :: b

/-- The per-directory discovery loop of `find_csv_files`
(`coord_utils.py`, lines 1155-1173, one `os.walk` root): skip non-CSV
names, stop at the per-protocol cap, skip files rejected by the
`is_file_complete` gate (line 1167), and keep the files whose path
parses.  The directory listing is modelled as (filename, content) pairs;
the per-protocol counter only grows on appended files. -/
def findCsvLoop (root : PyStr) (maxF : Nat) :
    List (PyStr × PyStr) → Nat → Except PyErr (List PathComponents)
  | [], _ => .ok []
  | (fname, content) :: rest, cnt =>
    if pyEndswith fname (pstr ".csv") = false then
      findCsvLoop root maxF rest cnt
    else if maxF ≤ cnt then .ok []
    else
      match is_file_complete content with
      | .error e => .error e
      | .ok false => findCsvLoop root maxF rest cnt
      | .ok true =>
        match parse_csv_path_structure (pyJoin root fname) with
        | .error e => .error e
        | .ok none => findCsvLoop root maxF rest cnt
        | .ok (some info) =>
          match findCsvLoop root maxF rest (cnt + 1) with
          | .error e => .error e
          | .ok tail => .ok (info :: tail)

/-- `find_csv_files` restricted to a single directory listing. -/
def find_csv_files_dir (root : PyStr) (maxF : Nat)
    (files : List (PyStr × PyStr)) : Except PyErr (List PathComponents) :=
  findCsvLoop root maxF files 0

/-! ## Basic properties of the string model -/

example : splitOnChar '-' (pstr "1-2*0") = [pstr "1", pstr "2*0"] := by decide

example : splitOnChar '_' (pstr "") = [pstr ""] := by decide

example : pyIntParse (pstr "25") = .ok 25 := by decide

example : pyIntParse (pstr " -300 ") = .ok (-300) := by decide

example : pyIntParse (pstr "1a") = .error .valueError := by decide

example : pyFloatParse (pstr "100") = .ok 100 := by decide

example : pyFloatParse (pstr "12.5") = .ok (Rat.divInt 25 2) := by decide

example : pyFloatParse (pstr "-3.25e+1") = .ok (Rat.divInt (-65) 2) := by decide

example : pyFloatParse (pstr ".") = .error .valueError := by decide

example : pyReadlines (pstr "a\nb\n") = [pstr "a\n", pstr "b\n"] := by decide

example : pyReadlines (pstr "a\nb") = [pstr "a\n", pstr "b"] := by decide

lemma digitVal_digitChar (d : Nat) (h : d < 10) : digitVal (digitChar d) = d := by
  interval_cases d <;> decide

lemma isAsciiDigit_digitChar (d : Nat) (h : d < 10) :
    isAsciiDigit (digitChar d) = true := by
  interval_cases d <;> decide

lemma digitsVal_append_digit (xs : PyStr) (c : Char) :
    digitsVal (xs ++ [c]) = 10 * digitsVal xs + digitVal c := by
  simp [digitsVal, List.foldl_append]

lemma digitsVal_natToDecAux :
    ∀ fuel n, n < fuel → digitsVal (natToDecAux fuel n) = n := by
  intro fuel
  induction fuel with
  | zero => intro n h; omega
  | succ fuel ih =>
    intro n h
    simp only [natToDecAux]
    split
    · next h10 => simp [digitsVal, digitVal_digitChar n h10]
    · next h10 =>
      have hlt : n / 10 < fuel := by
        have : n / 10 < n := Nat.div_lt_self (by omega) (by omega)
        omega
      rw [digitsVal_append_digit, ih (n / 10) hlt,
        digitVal_digitChar _ (Nat.mod_lt _ (by omega))]
      omega

lemma digitsVal_natToDec (n : Nat) : digitsVal (natToDec n) = n :=
  digitsVal_natToDecAux (n + 1) n (by omega)

lemma natToDec_injective : Function.Injective natToDec := by
  intro a b h
  have ha := digitsVal_natToDec a
  rw [h, digitsVal_natToDec] at ha
  omega

lemma natToDecAux_all_digits :
    ∀ fuel n, n < fuel → (natToDecAux fuel n).all isAsciiDigit = true := by
  intro fuel
  induction fuel with
  | zero => intro n h; omega
  | succ fuel ih =>
    intro n h
    simp only [natToDecAux]
    split
    · next h10 => simp [isAsciiDigit_digitChar n h10]
    · next h10 =>
      have hlt : n / 10 < fuel := by
        have : n / 10 < n := Nat.div_lt_self (by omega) (by omega)
        omega
      rw [List.all_append]
      simp [ih (n / 10) hlt, isAsciiDigit_digitChar _ (Nat.mod_lt _ (by omega))]

lemma natToDec_all_digits (n : Nat) : (natToDec n).all isAsciiDigit = true :=
  natToDecAux_all_digits (n + 1) n (by omega)

lemma natToDec_ne_nil (n : Nat) : natToDec n ≠ [] := by
  unfold natToDec
  simp only [natToDecAux]
  split <;> simp

lemma ne_of_isAsciiDigit {c d : Char} (h : isAsciiDigit c = true)
    (hd : isAsciiDigit d = false) : c ≠ d := by
  intro e
  rw [e, hd] at h
  exact Bool.false_ne_true h

/-! ## Equivalence of the duplicated transmission-vector parsers -/

lemma mkEdge_equiv (x y z : PyStr) :
    mkEdge x y z = (coordUtils.mkEdge x y z).map edgeOfOld := by
  unfold mkEdge coordUtils.mkEdge
  cases pyIntParse x <;> cases pyIntParse y <;> cases pyIntParse z <;> rfl

lemma parseRawEdge_equiv (rawEdge : PyStr) :
    parseRawEdge rawEdge = (coordUtils.parseRawEdge rawEdge).map edgeOfOld := by
  rcases h1 : splitOnChar '-' rawEdge with _ | ⟨source, _ | ⟨second, rest1⟩⟩
  · simp [parseRawEdge, coordUtils.parseRawEdge, h1, Except.map]
  · simp [parseRawEdge, coordUtils.parseRawEdge, h1, Except.map]
  · rcases h2 : splitOnChar '*' second with _ | ⟨dest, _ | ⟨phase, rest2⟩⟩
    · simp [parseRawEdge, coordUtils.parseRawEdge, h1, h2, Except.map]
    · simp [parseRawEdge, coordUtils.parseRawEdge, h1, h2, Except.map]
    · simp only [parseRawEdge, coordUtils.parseRawEdge, h1, h2]
      exact mkEdge_equiv source dest phase

lemma ptvLoop_equiv (l : List PyStr) :
    ptvLoop l = (coordUtils.ptvLoop l).map (List.map edgeOfOld) := by
  induction l with
  | nil => rfl
  | cons h t ih =>
    simp only [ptvLoop, coordUtils.ptvLoop]
    by_cases hl : h.length > 0
    · simp only [if_pos hl]
      rw [parseRawEdge_equiv]
      cases coordUtils.parseRawEdge h with
      | error e => rfl
      | ok e =>
        simp only [Except.map]
        rw [ih]
        cases coordUtils.ptvLoop t with
        | error e' => rfl
        | ok tail => rfl
    · simp only [if_neg hl]
      exact ih

/-- C8: the duplicated transmission-vector parsers of the two side-by-side
module versions are extensionally equal: on every input string,
`coord_utils.parse_transmission_vector` returns exactly the
(field-by-field identical) image of what `coordUtils.parseTransmissionVector`
returns, and raises exactly the same exception whenever the latter
raises. -/
theorem transmission_vector_parsers_equivalent (s : PyStr) :
    parse_transmission_vector s =
      (coordUtils.parseTransmissionVector s).map (List.map edgeOfOld) :=
  ptvLoop_equiv (splitOnChar '_' s)

/-- C7: the transmission-vector cell `"1-2*0_2-3*1_"` parses to exactly
`[Edge(1,2,0), Edge(2,3,1)]`, in that order. -/
theorem parse_transmission_vector_example :
    parse_transmission_vector (pstr "1-2*0_2-3*1_") =
      .ok [⟨1, 2, 0⟩, ⟨2, 3, 1⟩] := by decide

/-! ## `is_file_complete` and `parse_node_list` safety -/

/-- C9: `is_file_complete` returns `True` iff the file has exactly two
lines; three or more lines yield `False`; an empty (zero-line) file makes
it raise (`UnboundLocalError`) rather than return. -/
theorem is_file_complete_iff_two_lines (content : PyStr) :
    (is_file_complete content = .ok true ↔ (pyReadlines content).length = 2)
    ∧ (3 ≤ (pyReadlines content).length → is_file_complete content = .ok false)
    ∧ (content = [] → is_file_complete content = .error .unboundLocalError) := by
  have hdef : is_file_complete content =
      (if (pyReadlines content).isEmpty then .error .unboundLocalError
       else .ok ((pyReadlines content).length - 1 == 1)) := rfl
  refine ⟨?_, ?_, ?_⟩
  · rw [hdef]
    cases h : pyReadlines content with
    | nil => simp
    | cons a t =>
      simp only [List.isEmpty_cons, Bool.false_eq_true, if_false,
        List.length_cons, Nat.add_sub_cancel]
      constructor
      · intro he
        have h1 : (t.length == 1) = true := Except.ok.inj he
        have : t.length = 1 := by simpa using h1
        omega
      · intro hl
        have ht : t.length = 1 := by omega
        simp [ht]
  · intro h3
    rw [hdef]
    cases h : pyReadlines content with
    | nil => rw [h] at h3; simp at h3
    | cons a t =>
      rw [h] at h3
      simp only [List.length_cons] at h3
      simp only [List.isEmpty_cons, Bool.false_eq_true, if_false,
        List.length_cons, Nat.add_sub_cancel]
      have hne : (t.length == 1) = false := by
        have : t.length ≠ 1 := by omega
        simpa using this
      simp [hne]
  · intro he
    subst he
    rfl

/-- Witness for C9 at concrete files: a 3-line file yields `False` and an
empty file raises. -/
theorem is_file_complete_iff_two_lines_witness :
    is_file_complete (pstr "h\nd\nx\n") = .ok false
    ∧ is_file_complete (pstr "") = .error .unboundLocalError :=
  ⟨(is_file_complete_iff_two_lines (pstr "h\nd\nx\n")).2.1 (by decide),
   (is_file_complete_iff_two_lines (pstr "")).2.2 (by decide)⟩

/-- C10: on a file whose single line is a valid X-coordinate line,
`parse_node_list` reads the next two lines unconditionally as the Y and Z
components and raises an index-out-of-range error instead of returning a
mapping. -/
theorem parse_node_list_truncated_file_raises :
    parse_node_list (pstr "$node_(0) set X_ 100") = .error .indexError := by
  decide

/-! ## `parse_csv_path_structure` on the two canonical example paths -/

/-- C1: the path with the optional `cw` segment and the otherwise
identical path without it both parse; `cw` is the literal segment in the
first case and the sentinel `"none"` in the second. -/
theorem parse_csv_path_structure_examples :
    parse_csv_path_structure
        (pstr "Padova-25/b0/e0/r300/j0/cw[32-1024]/Fast-Broadcast/run1.csv") =
      .ok (some ⟨pstr "Padova-25", pstr "b0", pstr "e0", pstr "r300", pstr "j0",
        pstr "cw[32-1024]", pstr "Fast-Broadcast", pstr "run1.csv",
        pstr "Padova-25/b0/e0/r300/j0/cw[32-1024]/Fast-Broadcast/run1.csv"⟩)
    ∧ parse_csv_path_structure (pstr "Padova-25/b1/e0/r700/j0/ROFF/run2.csv") =
      .ok (some ⟨pstr "Padova-25", pstr "b1", pstr "e0", pstr "r700", pstr "j0",
        pstr "none", pstr "ROFF", pstr "run2.csv",
        pstr "Padova-25/b1/e0/r700/j0/ROFF/run2.csv"⟩) := by
  exact ⟨by decide, by decide⟩

/-! ## Header-only CSV files fail the whole parse; the batch continues -/

lemma findCsvLoop_stop (root : PyStr) (maxF : Nat) :
    ∀ (fs : List (PyStr × PyStr)) (cnt : Nat), maxF ≤ cnt →
    findCsvLoop root maxF fs cnt = .ok [] := by
  intro fs
  induction fs with
  | nil => intro cnt _; rfl
  | cons p rest ih =>
    intro cnt hc
    rcases p with ⟨fname, content⟩
    rw [findCsvLoop]
    by_cases he : pyEndswith fname (pstr ".csv") = false
    · rw [if_pos he]
      exact ih cnt hc
    · rw [if_neg he, if_pos hc]

/-- A file whose content has a single line is dropped by the discovery
gate: the found list is the same with or without it. -/
lemma findCsvLoop_skip_one_line (root : PyStr) (maxF : Nat)
    (fname content : PyStr) (hone : (pyReadlines content).length = 1) :
    ∀ (files1 files2 : List (PyStr × PyStr)) (cnt : Nat),
    findCsvLoop root maxF (files1 ++ (fname, content) :: files2) cnt =
      findCsvLoop root maxF (files1 ++ files2) cnt := by
  have hfc : is_file_complete content = .ok false := by
    rcases hl : pyReadlines content with _ | ⟨a, l⟩
    · rw [hl] at hone; simp at hone
    · rcases l with _ | ⟨b, l2⟩
      · simp [is_file_complete, hl]
      · rw [hl] at hone; simp at hone
  intro files1
  induction files1 with
  | nil =>
    intro files2 cnt
    simp only [List.nil_append]
    rw [findCsvLoop]
    by_cases he : pyEndswith fname (pstr ".csv") = false
    · rw [if_pos he]
    · rw [if_neg he]
      by_cases hm : maxF ≤ cnt
      · rw [if_pos hm, findCsvLoop_stop root maxF files2 cnt hm]
      · rw [if_neg hm]
        simp only [hfc]
  | cons p rest ih =>
    intro files2 cnt
    rcases p with ⟨fn, ct⟩
    simp only [List.cons_append]
    by_cases he : pyEndswith fn (pstr ".csv") = false
    · rw [findCsvLoop, findCsvLoop, if_pos he, if_pos he]
      exact ih files2 cnt
    · by_cases hm : maxF ≤ cnt
      · rw [findCsvLoop, findCsvLoop, if_neg he, if_neg he, if_pos hm,
          if_pos hm]
      · rw [findCsvLoop, findCsvLoop, if_neg he, if_neg he, if_neg hm,
          if_neg hm]
        cases hic : is_file_complete ct with
        | error e => simp only [hic]
        | ok b =>
          cases b
          · simp only [hic]
            exact ih files2 cnt
          · simp only [hic]
            cases hp : parse_csv_path_structure (pyJoin root fn) with
            | error e => simp only [hp]
            | ok o =>
              cases o with
              | none =>
                simp only [hp]
                exact ih files2 cnt
              | some info =>
                simp only [hp]
                rw [ih files2 (cnt + 1)]

/-- C6 (amended): a CSV file holding only a header row makes `parse_file`
raise `StopIteration` (no partial record) and the per-file plot wrapper
report failure; but in batch processing such a file never reaches the
counting loop: the `is_file_complete` gate inside CSV discovery
(`find_csv_files`, `coord_utils.py` line 1167, called by
`generic_process_batch` at line 2051) skips its single-line content, so
the discovered list, and with it the processed/failed tally, are exactly
those of the directory without the file. -/
theorem header_only_csv_skipped_not_counted
    (header : CsvRow) (mob : PyStr) (plotOk : ParseFileResult → Bool)
    (root : PyStr) (maxF : Nat) (files1 files2 : List (PyStr × PyStr))
    (fname content : PyStr) (hone : (pyReadlines content).length = 1)
    (process : PathComponents → Bool) :
    parse_file [header] mob = .error .stopIteration
    ∧ draw_coverage_process plotOk mob [header] = false
    ∧ find_csv_files_dir root maxF (files1 ++ (fname, content) :: files2) =
        find_csv_files_dir root maxF (files1 ++ files2)
    ∧ (find_csv_files_dir root maxF
          (files1 ++ (fname, content) :: files2)).map
        (generic_process_batch_counts process) =
      (find_csv_files_dir root maxF (files1 ++ files2)).map
        (generic_process_batch_counts process) := by
  have hparse : parse_file [header] mob = .error .stopIteration := rfl
  have hfind : find_csv_files_dir root maxF
      (files1 ++ (fname, content) :: files2) =
      find_csv_files_dir root maxF (files1 ++ files2) :=
    findCsvLoop_skip_one_line root maxF fname content hone files1 files2 0
  exact ⟨hparse, by simp [draw_coverage_process, hparse], hfind,
    by rw [hfind]⟩

/-- C6 witness: the amended theorem at a directory holding the header-only
`run1.csv` next to the complete two-line `run2.csv`. -/
theorem header_only_csv_skipped_not_counted_witness :
    parse_file [[pstr "id", pstr "x"]] (pstr "") = .error .stopIteration
    ∧ draw_coverage_process (fun _ => true) (pstr "")
        [[pstr "id", pstr "x"]] = false
    ∧ find_csv_files_dir (pstr "Padova-25/b1/e0/r700/j0/ROFF") 5
        ([] ++ (pstr "run1.csv", pstr "id,x\n") ::
          [(pstr "run2.csv", pstr "id,x\n1,2\n")]) =
      find_csv_files_dir (pstr "Padova-25/b1/e0/r700/j0/ROFF") 5
        ([] ++ [(pstr "run2.csv", pstr "id,x\n1,2\n")])
    ∧ (find_csv_files_dir (pstr "Padova-25/b1/e0/r700/j0/ROFF") 5
        ([] ++ (pstr "run1.csv", pstr "id,x\n") ::
          [(pstr "run2.csv", pstr "id,x\n1,2\n")])).map
        (generic_process_batch_counts (fun _ => true)) =
      (find_csv_files_dir (pstr "Padova-25/b1/e0/r700/j0/ROFF") 5
        ([] ++ [(pstr "run2.csv", pstr "id,x\n1,2\n")])).map
        (generic_process_batch_counts (fun _ => true)) :=
  header_only_csv_skipped_not_counted [pstr "id", pstr "x"] (pstr "")
    (fun _ => true) (pstr "Padova-25/b1/e0/r700/j0/ROFF") 5 []
    [(pstr "run2.csv", pstr "id,x\n1,2\n")] (pstr "run1.csv")
    (pstr "id,x\n") (by decide) (fun _ => true)

/-- C6 counterexample to the original claim: in batch mode a header-only
CSV is never counted as failed.  A directory with the header-only
`run1.csv` and the complete `run2.csv` discovers only `run2.csv`, and the
batch tally over the discovered list processes one file with zero
failures: the header-only file is neither processed nor failed. -/
theorem header_only_csv_not_counted_counterexample :
    find_csv_files_dir (pstr "Padova-25/b1/e0/r700/j0/ROFF") 5
      [(pstr "run1.csv", pstr "id,x\n"),
       (pstr "run2.csv", pstr "id,x\n1,2\n")] =
      .ok [⟨pstr "Padova-25", pstr "b1", pstr "e0", pstr "r700", pstr "j0",
        pstr "none", pstr "ROFF", pstr "run2.csv",
        pstr "Padova-25/b1/e0/r700/j0/ROFF/run2.csv"⟩]
    ∧ generic_process_batch_counts (fun _ => true)
        [(⟨pstr "Padova-25", pstr "b1", pstr "e0", pstr "r700", pstr "j0",
          pstr "none", pstr "ROFF", pstr "run2.csv",
          pstr "Padova-25/b1/e0/r700/j0/ROFF/run2.csv"⟩ :
          PathComponents)] = ⟨1, 1, 0⟩ := by
  exact ⟨by decide, by decide⟩

/-! ## The walk-up loop of the path-structure detector -/

lemma splitOnChar_ne_nil (sep : Char) (s : PyStr) : splitOnChar sep s ≠ [] := by
  cases s with
  | nil => simp [splitOnChar]
  | cons c cs =>
    simp only [splitOnChar]
    cases splitOnChar sep cs with
    | nil => simp
    | cons h t =>
      by_cases hc : c = sep <;> simp [hc]

lemma pyRelpath_ok_or_valueError (p start : PyStr) :
    (∃ r, pyRelpath p start = .ok r) ∨ pyRelpath p start = .error .valueError := by
  unfold pyRelpath
  split
  · exact Or.inr rfl
  · left
    dsimp only
    split
    · exact ⟨_, rfl⟩
    · exact ⟨_, rfl⟩

lemma detectLoop_succ_accept_dot (norm : PyStr) (fuel lb : Nat) (cur : PyStr)
    (res : DetectResult) (hcur : cur ≠ [])
    (hsc : scenarioPat (pyBasename cur) = true)
    (hrel : pyRelpath norm cur = .ok ['.']) :
    detectLoop norm (fuel + 1) lb cur res =
      .ok { res with
            scenario_path := cur,
            scenario_name := pyBasename cur,
            sub_path := [],
            is_sub_branch := false,
            structure_valid := true } := by
  simp [detectLoop, hcur, hsc, hrel]

lemma detectLoop_succ_accept_rel (norm : PyStr) (fuel lb : Nat) (cur : PyStr)
    (res : DetectResult) (rel : PyStr) (hcur : cur ≠ [])
    (hsc : scenarioPat (pyBasename cur) = true)
    (hrel : pyRelpath norm cur = .ok rel) (hdot : rel ≠ ['.'])
    (hval : validate_structure_parts (splitOnChar '/' rel) = true) :
    detectLoop norm (fuel + 1) lb cur res =
      .ok { res with
            scenario_path := cur,
            scenario_name := pyBasename cur,
            sub_path := rel,
            is_sub_branch := decide (0 < lb),
            structure_valid := true } := by
  simp [detectLoop, hcur, hsc, hrel, hdot, hval]

lemma detectLoop_succ_reject (norm : PyStr) (fuel lb : Nat) (cur : PyStr)
    (res : DetectResult) (hcur : cur ≠ [])
    (hacc : detectAccepts norm cur = false) :
    detectLoop norm (fuel + 1) lb cur res =
      (if pyDirname cur = cur then .ok res
       else detectLoop norm fuel (lb + 1) (pyDirname cur) res) := by
  rcases hb : scenarioPat (pyBasename cur) with _ | _
  · simp [detectLoop, hcur, hb]
  · rcases pyRelpath_ok_or_valueError norm cur with ⟨rel, hrel⟩ | hrel
    · rw [detectAccepts, hb] at hacc
      rw [hrel] at hacc
      simp only [Bool.true_and] at hacc
      rcases Bool.or_eq_false_iff.mp hacc with ⟨hdot, hval⟩
      have hdot' : rel ≠ ['.'] := by
        intro he
        rw [he] at hdot
        simp at hdot
      simp [detectLoop, hcur, hb, hrel, hdot', hval]
    · simp [detectLoop, hcur, hb, hrel]

lemma detectLoop_total (norm : PyStr) :
    ∀ fuel lb cur res, ∃ r, detectLoop norm fuel lb cur res = .ok r := by
  intro fuel
  induction fuel with
  | zero =>
    intro lb cur res
    by_cases hcur : cur = [] <;> simp [detectLoop, hcur]
  | succ fuel ih =>
    intro lb cur res
    by_cases hcur : cur = []
    · simp [detectLoop, hcur]
    · rcases hacc : detectAccepts norm cur with _ | _
      · rw [detectLoop_succ_reject norm fuel lb cur res hcur hacc]
        by_cases hpar : pyDirname cur = cur
        · simp [hpar]
        · simp only [if_neg hpar]
          exact ih (lb + 1) (pyDirname cur) res
      · rw [detectAccepts] at hacc
        rcases Bool.and_eq_true_iff.mp hacc with ⟨hsc, hrest⟩
        rcases pyRelpath_ok_or_valueError norm cur with ⟨rel, hrel⟩ | hrel
        · rw [hrel] at hrest
          by_cases hdot : rel = ['.']
          · subst hdot
            exact ⟨_, detectLoop_succ_accept_dot norm fuel lb cur res hcur hsc hrel⟩
          · have hval : validate_structure_parts (splitOnChar '/' rel) = true := by
              rcases Bool.or_eq_true_iff.mp hrest with h | h
              · exact absurd (by simpa using h) hdot
              · exact h
            exact ⟨_, detectLoop_succ_accept_rel norm fuel lb cur res rel hcur
              hsc hrel hdot hval⟩
        · rw [hrel] at hrest
          simp at hrest

/-- C3: `detect_scenario_from_basepath` never raises: for every input
path string it returns (`.ok`) a result record, whose `structure_valid`
field is a boolean the caller must check (the record always also carries
`scenario_path`, `scenario_name`, `sub_path` and `is_sub_branch`). -/
theorem detect_scenario_never_raises (base_folder : PyStr) :
    ∃ r, detect_scenario_from_basepath base_folder = .ok r ∧
      (r.structure_valid = true ∨ r.structure_valid = false) := by
  unfold detect_scenario_from_basepath
  by_cases hlen : (splitOnChar '/'
      (pyNormpath (pyRstripChars ['/', '\\'] base_folder))).length = 0
  · exact absurd (List.length_eq_zero.mp hlen) (splitOnChar_ne_nil _ _)
  · simp only [if_neg hlen]
    obtain ⟨r, hr⟩ := detectLoop_total
      (pyNormpath (pyRstripChars ['/', '\\'] base_folder)) 10 0
      (pyNormpath (pyRstripChars ['/', '\\'] base_folder)) _
    exact ⟨r, hr, Bool.eq_false_or_eq_true r.structure_valid⟩

lemma detectLoop_first_accept (norm : PyStr) :
    ∀ (k fuel lb : Nat) (cur : PyStr) (res : DetectResult), k < fuel →
    (∀ j, j < k → nthAncestor cur j ≠ [] ∧
      detectAccepts norm (nthAncestor cur j) = false ∧
      pyDirname (nthAncestor cur j) ≠ nthAncestor cur j) →
    nthAncestor cur k ≠ [] →
    detectAccepts norm (nthAncestor cur k) = true →
    ∃ r, detectLoop norm fuel lb cur res = .ok r ∧
      r.scenario_path = nthAncestor cur k ∧
      r.scenario_name = pyBasename (nthAncestor cur k) ∧
      r.structure_valid = true := by
  intro k
  induction k with
  | zero =>
    intro fuel lb cur res hfuel hreach hcur hacc
    rw [nthAncestor, Function.iterate_zero_apply] at hcur hacc
    obtain ⟨fuel', rfl⟩ : ∃ f, fuel = f + 1 := ⟨fuel - 1, by omega⟩
    rw [detectAccepts] at hacc
    rcases Bool.and_eq_true_iff.mp hacc with ⟨hsc, hrest⟩
    rcases pyRelpath_ok_or_valueError norm cur with ⟨rel, hrel⟩ | hrel
    · rw [hrel] at hrest
      by_cases hdot : rel = ['.']
      · subst hdot
        refine ⟨_, detectLoop_succ_accept_dot norm fuel' lb cur res hcur hsc hrel,
          ?_, ?_, ?_⟩ <;> simp [nthAncestor]
      · have hval : validate_structure_parts (splitOnChar '/' rel) = true := by
          rcases Bool.or_eq_true_iff.mp hrest with h | h
          · exact absurd (by simpa using h) hdot
          · exact h
        refine ⟨_, detectLoop_succ_accept_rel norm fuel' lb cur res rel hcur
          hsc hrel hdot hval, ?_, ?_, ?_⟩ <;> simp [nthAncestor]
    · rw [hrel] at hrest
      simp at hrest
  | succ k ih =>
    intro fuel lb cur res hfuel hreach hcur hacc
    obtain ⟨fuel', rfl⟩ : ∃ f, fuel = f + 1 := ⟨fuel - 1, by omega⟩
    obtain ⟨h0ne, h0acc, h0par⟩ := hreach 0 (by omega)
    rw [nthAncestor, Function.iterate_zero_apply] at h0ne h0acc h0par
    rw [detectLoop_succ_reject norm fuel' lb cur res h0ne h0acc, if_neg h0par]
    have hshift : ∀ j, nthAncestor (pyDirname cur) j = nthAncestor cur (j + 1) := by
      intro j
      rw [nthAncestor, nthAncestor, Function.iterate_succ_apply]
    refine ih fuel' (lb + 1) (pyDirname cur) res (by omega) ?_ ?_ ?_
    · intro j hj
      rw [hshift j]
      exact hreach (j + 1) (by omega)
    · rw [hshift k]
      exact hcur
    · rw [hshift k]
      exact hacc

/-- C4 (amended): on the walk upward from the normalized input path, the
first (nearest) ancestor that the loop accepts — its base name matches
the scenario regex AND the relative path from it to the input validates
against the expected structure (trivially so when the ancestor is the
input itself) — wins and is returned as the scenario root, even when a
farther ancestor is also acceptable.  In particular a protocol folder
accidentally named `Run-2` (the input path itself, accepted immediately)
is chosen over the true scenario directory above it. -/
theorem detect_nearest_accepted_ancestor_wins (base_folder : PyStr) (k : Nat)
    (hk : k < 10)
    (hreach : ∀ j, j < k → nthAncestor (normBase base_folder) j ≠ [] ∧
      detectAccepts (normBase base_folder)
        (nthAncestor (normBase base_folder) j) = false ∧
      pyDirname (nthAncestor (normBase base_folder) j) ≠
        nthAncestor (normBase base_folder) j)
    (hcur : nthAncestor (normBase base_folder) k ≠ [])
    (hacc : detectAccepts (normBase base_folder)
      (nthAncestor (normBase base_folder) k) = true) :
    ∃ r, detect_scenario_from_basepath base_folder = .ok r ∧
      r.scenario_path = nthAncestor (normBase base_folder) k ∧
      r.scenario_name = pyBasename (nthAncestor (normBase base_folder) k) ∧
      r.structure_valid = true := by
  have hnb : pyNormpath (pyRstripChars ['/', '\\'] base_folder) =
      normBase base_folder := rfl
  unfold detect_scenario_from_basepath
  rw [hnb]
  by_cases hlen : (splitOnChar '/' (normBase base_folder)).length = 0
  · exact absurd (List.length_eq_zero.mp hlen) (splitOnChar_ne_nil _ _)
  · simp only [if_neg hlen]
    exact detectLoop_first_accept (normBase base_folder) k 10 0
      (normBase base_folder) _ hk hreach hcur hacc

/-- Witness for C4 (amended) at the misfire input from the claim: the
path itself is a protocol folder accidentally named `Run-2`; it is
accepted immediately (level 0) and chosen as scenario root over the true
scenario directory `Scenario-1` above it. -/
theorem detect_nearest_accepted_ancestor_wins_witness :
    ∃ r, detect_scenario_from_basepath
        (pstr "Scenario-1/b0/e0/r300/j0/Run-2") = .ok r ∧
      r.scenario_path =
        nthAncestor (normBase (pstr "Scenario-1/b0/e0/r300/j0/Run-2")) 0 ∧
      r.scenario_name = pyBasename
        (nthAncestor (normBase (pstr "Scenario-1/b0/e0/r300/j0/Run-2")) 0) ∧
      r.structure_valid = true :=
  detect_nearest_accepted_ancestor_wins (pstr "Scenario-1/b0/e0/r300/j0/Run-2")
    0 (by omega) (fun j hj => absurd hj (by omega)) (by decide) (by decide)

/-- Counterexample to C4 as stated: on
`A-1/b0/e0/r1/j0/Proto/Run-2/x`, the first ancestor encountered on the
walk upward whose base name matches the scenario regex is the `Run-2`
directory at level 1 (level 0 does not match), yet the detector does not
return it: validation from `Run-2` fails and the much farther ancestor
`A-1` is returned as the scenario root instead. -/
theorem detect_first_matching_ancestor_counterexample :
    scenarioPat (pyBasename
      (nthAncestor (normBase (pstr "A-1/b0/e0/r1/j0/Proto/Run-2/x")) 0)) = false
    ∧ scenarioPat (pyBasename
      (nthAncestor (normBase (pstr "A-1/b0/e0/r1/j0/Proto/Run-2/x")) 1)) = true
    ∧ detect_scenario_from_basepath (pstr "A-1/b0/e0/r1/j0/Proto/Run-2/x") =
        .ok ⟨pstr "A-1", pstr "A-1", pstr "b0/e0/r1/j0/Proto/Run-2/x",
          true, true⟩
    ∧ pstr "A-1" ≠ nthAncestor (normBase (pstr "A-1/b0/e0/r1/j0/Proto/Run-2/x")) 1 := by
  refine ⟨by decide, by decide, by decide, by decide⟩

/-! ## Split/join/path lemmas over clean components -/

lemma splitOnChar_not_mem {sep : Char} {s : PyStr} (h : sep ∉ s) :
    splitOnChar sep s = [s] := by
  induction s with
  | nil => rfl
  | cons c cs ih =>
    simp only [List.mem_cons, not_or] at h
    rw [splitOnChar, ih h.2]
    simp [Ne.symm h.1]

lemma splitOnChar_append_sep {sep : Char} {a : PyStr} (b : PyStr)
    (h : sep ∉ a) : splitOnChar sep (a ++ sep :: b) = a :: splitOnChar sep b := by
  induction a with
  | nil =>
    simp only [List.nil_append, splitOnChar]
    cases hsb : splitOnChar sep b with
    | nil => exact absurd hsb (splitOnChar_ne_nil sep b)
    | cons x t => simp
  | cons c a' ih =>
    simp only [List.mem_cons, not_or] at h
    rw [List.cons_append, splitOnChar, ih h.2]
    simp [Ne.symm h.1]

lemma joinChar_cons (sep : Char) (s : PyStr) (ss : List PyStr) (h : ss ≠ []) :
    joinChar sep (s :: ss) = s ++ sep :: joinChar sep ss := by
  cases ss with
  | nil => exact absurd rfl h
  | cons t ts => rfl

lemma splitOnChar_joinChar {sep : Char} :
    ∀ {comps : List PyStr}, comps ≠ [] → (∀ c ∈ comps, sep ∉ c) →
    splitOnChar sep (joinChar sep comps) = comps := by
  intro comps
  induction comps with
  | nil => intro h; exact absurd rfl h
  | cons s ss ih =>
    intro _ hall
    cases hss : ss with
    | nil =>
      rw [joinChar]
      exact splitOnChar_not_mem (hall s (by simp))
    | cons t ts =>
      rw [← hss, joinChar_cons sep s ss (by rw [hss]; simp),
        splitOnChar_append_sep _ (hall s (by simp)),
        ih (by rw [hss]; simp) (fun c hc => hall c (by simp [hc]))]

lemma takeWhile_append_of_all {p : Char → Bool} :
    ∀ {l : PyStr} {x : Char} (r : PyStr), (∀ c ∈ l, p c = true) → p x = false →
    (l ++ x :: r).takeWhile p = l := by
  intro l
  induction l with
  | nil => intro x r _ hx; simp [List.takeWhile, hx]
  | cons c cs ih =>
    intro x r hl hx
    rw [List.cons_append, List.takeWhile_cons, hl c (by simp),
      ih r (fun d hd => hl d (by simp [hd])) hx]
    simp

lemma dropWhile_eq_self_of_head {p : Char → Bool} {l : PyStr}
    (h : ∀ x, l.head? = some x → p x = false) : l.dropWhile p = l := by
  cases l with
  | nil => rfl
  | cons c cs => rw [List.dropWhile_cons, h c rfl]; simp

lemma pyRstripChars_eq_self {cs : List Char} {s : PyStr}
    (h : ∀ c, s.getLast? = some c → ¬(c ∈ cs)) :
    pyRstripChars cs s = s := by
  unfold pyRstripChars rdropWhile
  rw [dropWhile_eq_self_of_head, List.reverse_reverse]
  intro x hx
  rw [List.head?_reverse] at hx
  simpa using h x hx

lemma replaceChar_eq_self {old new : Char} {s : PyStr} (h : old ∉ s) :
    replaceChar old new s = s := by
  unfold replaceChar
  induction s with
  | nil => rfl
  | cons c cs ih =>
    simp only [List.mem_cons, not_or] at h
    simp only [List.map_cons]
    rw [if_neg (fun e => h.1 e.symm), ih h.2]

lemma pySplit_append (a last : PyStr) (hlast : '/' ∉ last) (ha : a ≠ [])
    (hlastchar : ∀ c, a.getLast? = some c → c ≠ '/') :
    pySplit (a ++ '/' :: last) = (a, last) := by
  have hrev : (a ++ '/' :: last).reverse = last.reverse ++ '/' :: a.reverse := by
    simp
  have htail : (a ++ '/' :: last).reverse.takeWhile (fun x => decide (x ≠ '/'))
      = last.reverse := by
    rw [hrev]
    refine takeWhile_append_of_all _ ?_ (by simp)
    intro c hc
    simp only [List.mem_reverse] at hc
    have : c ≠ '/' := fun e => hlast (by rw [e] at hc; exact hc)
    simpa using this
  have hlen : (a ++ '/' :: last).length - last.length = a.length + 1 := by
    simp
    omega
  have hhead : (a ++ '/' :: last).take (a.length + 1) = a ++ ['/'] := by
    have h2 : a ++ '/' :: last = (a ++ ['/']) ++ last := by simp
    rw [h2]
    have h3 := List.take_left (a ++ ['/']) last
    simpa using h3
  have hlaststr : pyRstripChars ['/'] (a ++ ['/']) = a := by
    unfold pyRstripChars rdropWhile
    have h4 : (a ++ ['/']).reverse = '/' :: a.reverse := by simp
    rw [h4, List.dropWhile_cons, if_pos (by decide)]
    rw [dropWhile_eq_self_of_head, List.reverse_reverse]
    intro x hx
    rw [List.head?_reverse] at hx
    simp [hlastchar x hx]
  have hnotall : ((a ++ ['/']).all fun c => decide (c = '/')) = false := by
    cases hb : ((a ++ ['/']).all fun c => decide (c = '/')) with
    | false => rfl
    | true =>
      exfalso
      have hall := List.all_eq_true.mp hb
      have hl := List.getLast?_eq_getLast a ha
      refine hlastchar _ hl ?_
      have hmem : a.getLast ha ∈ a ++ ['/'] := by
        simp [List.getLast_mem ha]
      simpa using hall _ hmem
  unfold pySplit
  rw [htail, List.reverse_reverse]
  dsimp only
  rw [hlen, hhead]
  rw [if_pos (by simp [hnotall])]
  rw [hlaststr]

/-- The cleanliness condition on one path component used throughout:
non-empty, not `.` or `..`, and free of `/`. -/
def IsCleanComp (c : PyStr) : Prop :=
  c ≠ [] ∧ c ≠ ['.'] ∧ c ≠ ['.', '.'] ∧ '/' ∉ c

lemma joinChar_ne_nil {sep : Char} :
    ∀ {comps : List PyStr}, comps ≠ [] → (∀ c ∈ comps, c ≠ []) →
    joinChar sep comps ≠ [] := by
  intro comps
  induction comps with
  | nil => intro h; exact absurd rfl h
  | cons s ss _ =>
    intro _ hall
    cases ss with
    | nil => exact hall s (by simp)
    | cons t ts =>
      rw [joinChar_cons sep s (t :: ts) (by simp)]
      intro he
      have := congrArg List.length he
      simp at this

lemma joinChar_append_single (sep : Char) :
    ∀ (xs : List PyStr) (y : PyStr), xs ≠ [] →
    joinChar sep (xs ++ [y]) = joinChar sep xs ++ sep :: y := by
  intro xs
  induction xs with
  | nil => intro y h; exact absurd rfl h
  | cons x xs ih =>
    intro y _
    cases hxs : xs with
    | nil => simp [joinChar]
    | cons t ts =>
      rw [← hxs, List.cons_append,
        joinChar_cons sep x (xs ++ [y]) (by rw [hxs]; simp),
        joinChar_cons sep x xs (by rw [hxs]; simp), ih y (by rw [hxs]; simp)]
      simp

lemma joinChar_getLast? {sep : Char} :
    ∀ {comps : List PyStr} {last : PyStr}, comps.getLast? = some last →
    (∀ c ∈ comps, c ≠ []) →
    (joinChar sep comps).getLast? = last.getLast? := by
  intro comps
  induction comps with
  | nil => intro last h; simp at h
  | cons s ss ih =>
    intro last h hall
    cases ss with
    | nil =>
      simp only [List.getLast?_singleton, Option.some_inj] at h
      rw [joinChar, h]
    | cons t ts =>
      rw [joinChar_cons sep s (t :: ts) (by simp)]
      have hjoin : joinChar sep (t :: ts) ≠ [] :=
        joinChar_ne_nil (by simp) (fun c hc => hall c (by simp [hc]))
      rcases List.exists_cons_of_ne_nil hjoin with ⟨c, l, hcl⟩
      rw [List.getLast?_cons_cons] at h
      rw [List.getLast?_append_cons, hcl, List.getLast?_cons_cons, ← hcl,
        ih h (fun c hc => hall c (by simp [hc]))]

lemma getLast_char_ne_slash {comps : List PyStr} (h : comps ≠ [])
    (hcl : ∀ c ∈ comps, c ≠ [] ∧ '/' ∉ c) :
    ∀ c, (joinChar '/' comps).getLast? = some c → c ≠ '/' := by
  intro c hc
  have hlast : comps.getLast? = some (comps.getLast h) :=
    List.getLast?_eq_getLast_of_ne_nil h
  have hmem : comps.getLast h ∈ comps := List.getLast_mem h
  rw [joinChar_getLast? hlast (fun x hx => (hcl x hx).1)] at hc
  have hlne := (hcl _ hmem).1
  rw [List.getLast?_eq_getLast_of_ne_nil hlne] at hc
  have hcm : c ∈ comps.getLast h := by
    rw [← Option.some_inj.mp hc]
    exact List.getLast_mem hlne
  intro he
  rw [he] at hcm
  exact (hcl _ hmem).2 hcm

lemma pySplit_joinChar {comps : List PyStr} (last : PyStr) (hc : comps ≠ [])
    (hcc : ∀ c ∈ comps, c ≠ [] ∧ '/' ∉ c) (hl : '/' ∉ last) :
    pySplit (joinChar '/' (comps ++ [last])) = (joinChar '/' comps, last) := by
  rw [joinChar_append_single '/' comps last hc]
  exact pySplit_append _ _ hl
    (joinChar_ne_nil hc (fun c hcm => (hcc c hcm).1))
    (getLast_char_ne_slash hc hcc)

lemma takeWhile_eq_self_of_all {p : Char → Bool} {l : PyStr}
    (h : ∀ c ∈ l, p c = true) : l.takeWhile p = l := by
  induction l with
  | nil => rfl
  | cons c cs ih =>
    rw [List.takeWhile_cons, h c (by simp), ih (fun d hd => h d (by simp [hd]))]
    simp

lemma pySplit_no_slash {s : PyStr} (h : '/' ∉ s) : pySplit s = ([], s) := by
  unfold pySplit
  have htake : s.reverse.takeWhile (fun x => decide (x ≠ '/')) = s.reverse := by
    refine takeWhile_eq_self_of_all ?_
    intro c hc
    simp only [List.mem_reverse] at hc
    have : c ≠ '/' := fun e => h (by rw [e] at hc; exact hc)
    simpa using this
  rw [htake, List.reverse_reverse]
  simp

lemma foldl_normpathFoldStep (isl : Nat) :
    ∀ (comps : List PyStr) (acc : List PyStr),
    (∀ c ∈ comps, c ≠ [] ∧ c ≠ ['.'] ∧ c ≠ ['.', '.']) →
    comps.foldl (normpathFoldStep isl) acc = acc ++ comps := by
  intro comps
  induction comps with
  | nil => intro acc _; simp
  | cons c cs ih =>
    intro acc hall
    obtain ⟨hne, hdot, hdd⟩ := hall c (by simp)
    rw [List.foldl_cons]
    have hstep : normpathFoldStep isl acc c = acc ++ [c] := by
      unfold normpathFoldStep
      rw [if_neg (by simp [hne, hdot]), if_pos (by simp [hdd])]
    rw [hstep, ih (acc ++ [c]) (fun d hd => hall d (by simp [hd]))]
    simp

lemma joinChar_head_cons {sep : Char} {c0 : Char} {s' : PyStr} {ss : List PyStr} :
    ∃ r, joinChar sep ((c0 :: s') :: ss) = c0 :: r := by
  cases ss with
  | nil => exact ⟨s', rfl⟩
  | cons t ts =>
    rw [joinChar_cons sep _ (t :: ts) (by simp)]
    exact ⟨_, rfl⟩

lemma initialSlashCount_of_no_slash {p : PyStr} (h : p.take 1 ≠ ['/']) :
    initialSlashCount p = 0 := by
  unfold initialSlashCount
  rw [if_neg h]

lemma initialSlashCount_slash_cons {c0 : Char} {r : PyStr} (h : c0 ≠ '/') :
    initialSlashCount ('/' :: c0 :: r) = 1 := by
  unfold initialSlashCount
  rw [if_pos (by simp), if_neg]
  simp [List.take, h]

lemma pyNormpath_joinChar {comps : List PyStr} (hne : comps ≠ [])
    (hcl : ∀ c ∈ comps, IsCleanComp c) :
    pyNormpath (joinChar '/' comps) = joinChar '/' comps := by
  have hp : joinChar '/' comps ≠ [] :=
    joinChar_ne_nil hne (fun c hc => (hcl c hc).1)
  have hdots : ∀ c ∈ comps, c ≠ [] ∧ c ≠ ['.'] ∧ c ≠ ['.', '.'] := by
    intro c hc
    obtain ⟨h1, h2, h3, _⟩ := hcl c hc
    exact ⟨h1, h2, h3⟩
  have htake : (joinChar '/' comps).take 1 ≠ ['/'] := by
    obtain ⟨s, ss, rfl⟩ := List.exists_cons_of_ne_nil hne
    obtain ⟨hs, _, _, hsl⟩ := hcl s (by simp)
    obtain ⟨c0, s', rfl⟩ := List.exists_cons_of_ne_nil hs
    obtain ⟨r, hr⟩ := @joinChar_head_cons '/' c0 s' ss
    have hc0 : c0 ≠ '/' := by
      intro he
      exact hsl (by rw [he]; simp)
    rw [hr]
    simp [hc0]
  unfold pyNormpath
  rw [if_neg hp]
  dsimp only
  rw [initialSlashCount_of_no_slash htake,
    splitOnChar_joinChar hne (fun c hc => (hcl c hc).2.2.2),
    foldl_normpathFoldStep 0 comps [] hdots]
  simp only [List.nil_append, List.replicate_zero]
  rw [if_neg hp]

lemma splitOnChar_cons_sep (sep : Char) (b : PyStr) :
    splitOnChar sep (sep :: b) = [] :: splitOnChar sep b := by
  rw [splitOnChar]
  cases hsb : splitOnChar sep b with
  | nil => exact absurd hsb (splitOnChar_ne_nil sep b)
  | cons x t => simp

lemma filter_ne_nil_of_all {l : List PyStr} (h : ∀ c ∈ l, c ≠ []) :
    l.filter (· ≠ []) = l := by
  induction l with
  | nil => rfl
  | cons c cs ih =>
    rw [List.filter_cons, if_pos (by simpa using h c (by simp)),
      ih (fun d hd => h d (by simp [hd]))]

lemma pyAbspathParts_joinChar {comps : List PyStr} (hne : comps ≠ [])
    (hcl : ∀ c ∈ comps, IsCleanComp c) :
    pyAbspathParts (joinChar '/' comps) = comps := by
  have hdots : ∀ c ∈ comps, c ≠ [] ∧ c ≠ ['.'] ∧ c ≠ ['.', '.'] := by
    intro c hc
    obtain ⟨h1, h2, h3, _⟩ := hcl c hc
    exact ⟨h1, h2, h3⟩
  obtain ⟨s, ss, hcss⟩ := List.exists_cons_of_ne_nil hne
  obtain ⟨hs, _, _, hsl⟩ := hcl s (by rw [hcss]; simp)
  obtain ⟨c0, s', hcs⟩ := List.exists_cons_of_ne_nil hs
  have hc0 : c0 ≠ '/' := by
    intro he
    exact hsl (by rw [hcs, he]; simp)
  obtain ⟨r, hr⟩ : ∃ r, joinChar '/' comps = c0 :: r := by
    rw [hcss, hcs]
    exact joinChar_head_cons
  have htake1 : (joinChar '/' comps).take 1 ≠ ['/'] := by
    rw [hr]
    simp [hc0]
  have hnorm : pyNormpath ('/' :: joinChar '/' comps) =
      '/' :: joinChar '/' comps := by
    unfold pyNormpath
    rw [if_neg (by simp)]
    dsimp only
    have hisl : initialSlashCount ('/' :: joinChar '/' comps) = 1 := by
      rw [hr]
      exact initialSlashCount_slash_cons hc0
    rw [hisl, splitOnChar_cons_sep,
      splitOnChar_joinChar hne (fun c hc => (hcl c hc).2.2.2),
      List.foldl_cons]
    have hfirst : normpathFoldStep 1 [] [] = [] := by
      unfold normpathFoldStep
      simp
    rw [hfirst, foldl_normpathFoldStep 1 comps [] hdots]
    simp only [List.nil_append, List.replicate_one, List.singleton_append]
    rw [if_neg (by simp)]
  unfold pyAbspathParts
  rw [if_neg htake1, hnorm, splitOnChar_cons_sep,
    splitOnChar_joinChar hne (fun c hc => (hcl c hc).2.2.2)]
  rw [List.filter_cons, if_neg (by simp)]
  exact filter_ne_nil_of_all (fun c hc => (hcl c hc).1)

lemma commonPrefixLen_self_append :
    ∀ (a b : List PyStr), commonPrefixLen a (a ++ b) = a.length := by
  intro a
  induction a with
  | nil =>
    intro b
    cases b <;> rfl
  | cons x xs ih =>
    intro b
    rw [List.cons_append, commonPrefixLen, if_pos rfl, ih b]
    rfl

lemma pyRelpath_joinChar (a b : List PyStr) (ha : a ≠ [])
    (hcla : ∀ c ∈ a, IsCleanComp c) (hclb : ∀ c ∈ b, IsCleanComp c) :
    pyRelpath (joinChar '/' (a ++ b)) (joinChar '/' a) =
      .ok (if b = [] then ['.'] else joinChar '/' b) := by
  have hab : (a ++ b) ≠ [] := by simp [ha]
  have hclab : ∀ c ∈ a ++ b, IsCleanComp c := by
    intro c hc
    rcases List.mem_append.mp hc with h | h
    · exact hcla c h
    · exact hclb c h
  have hp : joinChar '/' (a ++ b) ≠ [] :=
    joinChar_ne_nil hab (fun c hc => (hclab c hc).1)
  unfold pyRelpath
  rw [if_neg hp]
  dsimp only
  rw [pyAbspathParts_joinChar hab hclab, pyAbspathParts_joinChar ha hcla,
    commonPrefixLen_self_append, List.drop_left]
  simp only [Nat.sub_self, List.replicate_zero, List.nil_append]
  cases hb : b with
  | nil => simp
  | cons x xs =>
    rw [if_neg (by simp), if_neg (by simp)]

/-! ## Character-class and pattern lemmas -/

lemma ne_of_pred {P : Char → Bool} {c d : Char} (h : P c = true)
    (hd : P d = false) : c ≠ d := by
  intro e
  rw [e, hd] at h
  exact Bool.false_ne_true h

lemma pyMatchDollar_of_core {core : PyStr → Bool} {s : PyStr}
    (h : core s = true) : pyMatchDollar core s = true := by
  unfold pyMatchDollar
  rw [h]
  rfl

/-- The characters a scenario name can contain. -/
def scenChar (c : Char) : Bool := isAsciiAlpha c || c = '-' || isAsciiDigit c

lemma not_alpha_of_digit {c : Char} (h : isAsciiDigit c = true) :
    isAsciiAlpha c = false := by
  simp only [isAsciiDigit, Bool.and_eq_true, decide_eq_true_eq] at h
  have h9 : c.toNat ≤ 57 := by
    have := h.2
    rw [Char.le_def] at this
    exact this
  simp only [isAsciiAlpha, Bool.or_eq_false_iff, Bool.and_eq_false_iff]
  constructor
  · refine Or.inl ?_
    simp only [decide_eq_false_iff_not]
    rw [Char.le_def]
    intro hc
    have : (65 : Nat) ≤ c.toNat := hc
    omega
  · refine Or.inl ?_
    simp only [decide_eq_false_iff_not]
    rw [Char.le_def]
    intro hc
    have : (97 : Nat) ≤ c.toNat := hc
    omega

lemma takeWhile_nil_of_head_false {p : Char → Bool} {d : Char} (ds : PyStr)
    (h : p d = false) : (d :: ds).takeWhile p = [] := by
  rw [List.takeWhile_cons, h]
  simp

lemma scenarioCore_shape {s : PyStr} (h : scenarioCore s = true) :
    ∃ a ds, s = a ++ '-' :: ds ∧ a ≠ [] ∧ (∀ c ∈ a, isAsciiAlpha c = true)
      ∧ ds ≠ [] ∧ (∀ c ∈ ds, isAsciiDigit c = true) := by
  unfold scenarioCore at h
  dsimp only at h
  obtain ⟨t, ht⟩ := (@List.takeWhile_prefix _ s isAsciiAlpha)
  have hdrop : List.drop (s.takeWhile isAsciiAlpha).length s = t := by
    have h2 := congrArg (List.drop (s.takeWhile isAsciiAlpha).length) ht
    rw [List.drop_left] at h2
    exact h2.symm
  rw [hdrop] at h
  rcases t with _ | ⟨c, ds⟩
  · exact absurd h (by simp)
  · simp only [Bool.and_eq_true, decide_eq_true_eq] at h
    obtain ⟨⟨⟨hc, hane⟩, hdne⟩, hall⟩ := h
    subst hc
    refine ⟨s.takeWhile isAsciiAlpha, ds, ht.symm, by simpa using hane,
      fun c hc => List.mem_takeWhile_imp hc, by simpa using hdne,
      List.all_eq_true.mp hall⟩

lemma scenarioCore_all_scenChar {s : PyStr} (h : scenarioCore s = true) :
    ∀ c ∈ s, scenChar c = true := by
  obtain ⟨a, ds, rfl, _, hall, _, hds⟩ := scenarioCore_shape h
  intro c hc
  rcases List.mem_append.mp hc with hm | hm
  · unfold scenChar
    rw [hall c hm]
    rfl
  · rcases List.mem_cons.mp hm with he | hm
    · subst he
      rfl
    · unfold scenChar
      rw [hds c hm]
      simp

lemma scenarioCore_ne_nil {s : PyStr} (h : scenarioCore s = true) : s ≠ [] := by
  obtain ⟨a, ds, rfl, ha, _, _, _⟩ := scenarioCore_shape h
  simp

lemma isCleanComp_of_all_scenChar {s : PyStr} (hne : s ≠ [])
    (h : ∀ c ∈ s, scenChar c = true) : IsCleanComp s := by
  refine ⟨hne, ?_, ?_, ?_⟩
  · intro he
    subst he
    exact absurd (h '.' (by simp)) (by decide)
  · intro he
    subst he
    exact absurd (h '.' (by simp)) (by decide)
  · intro hmem
    exact absurd (h '/' hmem) (by decide)

lemma scenChar_not_backslash {s : PyStr} (h : ∀ c ∈ s, scenChar c = true) :
    '\\' ∉ s := fun hmem => absurd (h '\\' hmem) (by decide)

lemma buildingCore_shape {s : PyStr} (h : buildingCore s = true) :
    s = pstr "b0" ∨ s = pstr "b1" := by
  rcases s with _ | ⟨b, _ | ⟨c, _ | ⟨d, t⟩⟩⟩
  · exact absurd h (by simp [buildingCore])
  · exact absurd h (by simp [buildingCore])
  · unfold buildingCore at h
    simp only [Bool.and_eq_true, Bool.or_eq_true, decide_eq_true_eq] at h
    obtain ⟨rfl, hc⟩ := h
    rcases hc with rfl | rfl
    · exact Or.inl rfl
    · exact Or.inr rfl
  · exact absurd h (by simp [buildingCore])

lemma buildingCore_all_scenChar {s : PyStr} (h : buildingCore s = true) :
    ∀ c ∈ s, scenChar c = true := by
  rcases buildingCore_shape h with rfl | rfl <;> decide

lemma buildingCore_ne_nil {s : PyStr} (h : buildingCore s = true) : s ≠ [] := by
  rcases buildingCore_shape h with rfl | rfl <;> decide

lemma scenarioPat_of_buildingCore {s : PyStr} (h : buildingCore s = true) :
    scenarioPat s = false := by
  rcases buildingCore_shape h with rfl | rfl <;> decide

lemma prefixDigitsCore_shape {letter : Char} {s : PyStr}
    (h : prefixDigitsCore letter s = true) :
    ∃ ds, s = letter :: ds ∧ ds ≠ [] ∧ ∀ c ∈ ds, isAsciiDigit c = true := by
  rcases s with _ | ⟨c, ds⟩
  · exact absurd h (by simp [prefixDigitsCore])
  · unfold prefixDigitsCore at h
    simp only [Bool.and_eq_true, decide_eq_true_eq] at h
    obtain ⟨⟨rfl, hne⟩, hall⟩ := h
    exact ⟨ds, rfl, by simpa using hne, List.all_eq_true.mp hall⟩

lemma prefixDigitsCore_all_scenChar {letter : Char} {s : PyStr}
    (hl : scenChar letter = true) (h : prefixDigitsCore letter s = true) :
    ∀ c ∈ s, scenChar c = true := by
  obtain ⟨ds, rfl, _, hall⟩ := prefixDigitsCore_shape h
  intro c hc
  rcases List.mem_cons.mp hc with rfl | hm
  · exact hl
  · unfold scenChar
    rw [hall c hm]
    simp

lemma scenarioPat_of_prefixDigitsCore {letter : Char} {s : PyStr}
    (hl : isAsciiAlpha letter = true) (h : prefixDigitsCore letter s = true) :
    scenarioPat s = false := by
  obtain ⟨ds, rfl, hne, hall⟩ := prefixDigitsCore_shape h
  obtain ⟨d, rest, rfl⟩ := List.exists_cons_of_ne_nil hne
  have hd : isAsciiDigit d = true := hall d (by simp)
  have hcore : scenarioCore (letter :: d :: rest) = false := by
    unfold scenarioCore
    dsimp only
    have htw : (letter :: d :: rest).takeWhile isAsciiAlpha =
        letter :: (d :: rest).takeWhile isAsciiAlpha := by
      rw [List.takeWhile_cons, hl]
      simp
    rw [htw, takeWhile_nil_of_head_false _ (not_alpha_of_digit hd)]
    simp only [List.length_cons, List.length_nil, Nat.zero_add,
      List.drop_succ_cons, List.drop_zero]
    have hdd : (decide (d = '-')) = false := by
      simp only [decide_eq_false_iff_not]
      exact ne_of_pred hd (by decide)
    simp [hdd]
  have hlastne : ((letter :: d :: rest).getLast? == some '\n') = false := by
    rw [List.getLast?_cons_cons]
    have hlast : (d :: rest).getLast? = some ((d :: rest).getLast (by simp)) :=
      List.getLast?_eq_getLast_of_ne_nil (by simp)
    have hmem : (d :: rest).getLast (by simp) ∈ d :: rest :=
      List.getLast_mem (by simp)
    have hdig := hall _ hmem
    have hnewline : (d :: rest).getLast (by simp) ≠ '\n' :=
      ne_of_pred hdig (by decide)
    rw [hlast]
    simpa using hnewline
  unfold scenarioPat pyMatchDollar
  rw [hcore, hlastne]
  rfl

/-! ## Walking the loop down a clean scenario tree -/

lemma mem_joinChar {sep : Char} {c : Char} :
    ∀ {comps : List PyStr}, c ∈ joinChar sep comps →
    c = sep ∨ ∃ p ∈ comps, c ∈ p := by
  intro comps
  induction comps with
  | nil => intro h; simp [joinChar] at h
  | cons s ss ih =>
    intro h
    cases ss with
    | nil =>
      rw [joinChar] at h
      exact Or.inr ⟨s, by simp, h⟩
    | cons t ts =>
      rw [joinChar_cons sep s (t :: ts) (by simp)] at h
      rcases List.mem_append.mp h with hm | hm
      · exact Or.inr ⟨s, by simp, hm⟩
      · rcases List.mem_cons.mp hm with rfl | hm
        · exact Or.inl rfl
        · rcases ih hm with he | ⟨p, hp, hcp⟩
          · exact Or.inl he
          · exact Or.inr ⟨p, by simp [hp], hcp⟩

lemma append_cons_ne_self (a : PyStr) (c : Char) (l : PyStr) :
    a ≠ a ++ c :: l := by
  intro h
  have := congrArg List.length h
  simp at this

lemma detectAccepts_false_of_basename (norm cur : PyStr)
    (h : scenarioPat (pyBasename cur) = false) :
    detectAccepts norm cur = false := by
  unfold detectAccepts
  rw [h]
  rfl

lemma detectLoop_reject_join (norm scen : PyStr) (init : List PyStr)
    (last : PyStr) (fuel lb : Nat) (res : DetectResult)
    (hclean : ∀ c ∈ scen :: init, IsCleanComp c) (hlast : IsCleanComp last)
    (hpat : scenarioPat last = false) :
    detectLoop norm (fuel + 1) lb (joinChar '/' ((scen :: init) ++ [last])) res
      = detectLoop norm fuel (lb + 1) (joinChar '/' (scen :: init)) res := by
  have hcnn : ∀ c ∈ (scen :: init) ++ [last], c ≠ [] := by
    intro c hc
    rcases List.mem_append.mp hc with hm | hm
    · exact (hclean c hm).1
    · rw [List.mem_singleton.mp hm]
      exact hlast.1
  have hcur : joinChar '/' ((scen :: init) ++ [last]) ≠ [] :=
    joinChar_ne_nil (by simp) hcnn
  have hsplit := @pySplit_joinChar (scen :: init) last (by simp)
    (fun c hc => ⟨(hclean c hc).1, (hclean c hc).2.2.2⟩) hlast.2.2.2
  have hbase : pyBasename (joinChar '/' ((scen :: init) ++ [last])) = last :=
    congrArg Prod.snd hsplit
  have hdir : pyDirname (joinChar '/' ((scen :: init) ++ [last])) =
      joinChar '/' (scen :: init) :=
    congrArg Prod.fst hsplit
  have hacc : detectAccepts norm (joinChar '/' ((scen :: init) ++ [last]))
      = false :=
    detectAccepts_false_of_basename _ _ (by rw [hbase]; exact hpat)
  rw [detectLoop_succ_reject norm fuel lb _ res hcur hacc, hdir,
    if_neg ?hne]
  case hne =>
    rw [joinChar_append_single '/' (scen :: init) last (by simp)]
    exact append_cons_ne_self _ _ _

lemma detectLoop_chain (norm scen : PyStr) :
    ∀ (parts : List PyStr) (fuel lb : Nat) (res : DetectResult),
    parts.length < fuel →
    (∀ c ∈ scen :: parts, IsCleanComp c) →
    (∀ p ∈ parts, scenarioPat p = false) →
    detectLoop norm fuel lb (joinChar '/' (scen :: parts)) res =
      detectLoop norm (fuel - parts.length) (lb + parts.length)
        (joinChar '/' [scen]) res := by
  intro parts
  induction parts using List.reverseRecOn with
  | nil =>
    intro fuel lb res _ _ _
    simp
  | append_singleton xs x ih =>
    intro fuel lb res hfuel hclean hnoscen
    obtain ⟨f, rfl⟩ : ∃ f, fuel = f + 1 :=
      ⟨fuel - 1, by simp at hfuel; omega⟩
    have hstep : joinChar '/' (scen :: (xs ++ [x])) =
        joinChar '/' ((scen :: xs) ++ [x]) := by
      rw [List.cons_append]
    rw [hstep, detectLoop_reject_join norm scen xs x f lb res
      (fun c hc => hclean c (by
        rcases List.mem_cons.mp hc with rfl | hm
        · simp
        · simp [hm]))
      (hclean x (by simp))
      (hnoscen x (by simp))]
    rw [ih f (lb + 1) res (by simp at hfuel ⊢; omega)
      (fun c hc => hclean c (by
        rcases List.mem_cons.mp hc with rfl | hm
        · simp
        · simp [hm]))
      (fun p hp => hnoscen p (by simp [hp]))]
    have hlen1 : (xs ++ [x]).length = xs.length + 1 := by simp
    rw [hlen1]
    have e1 : f + 1 - (xs.length + 1) = f - xs.length := by omega
    have e2 : lb + (xs.length + 1) = lb + 1 + xs.length := by omega
    rw [e1, e2]

lemma pyBasename_no_slash {s : PyStr} (h : '/' ∉ s) : pyBasename s = s :=
  congrArg Prod.snd (pySplit_no_slash h)

lemma detect_below_scenario (scen : PyStr) (parts : List PyStr)
    (hscen : scenarioCore scen = true)
    (hcleanp : ∀ p ∈ parts, IsCleanComp p)
    (hnoscen : ∀ p ∈ parts, scenarioPat p = false)
    (hnb : ∀ p ∈ scen :: parts, '\\' ∉ p)
    (hvalid : validate_structure_parts parts = true)
    (hhead : parts ≠ [] → joinChar '/' parts ≠ ['.'])
    (hlenf : parts.length ≤ 8) :
    detect_scenario_from_basepath (joinChar '/' (scen :: parts)) =
      .ok ⟨scen, scen, if parts = [] then [] else joinChar '/' parts,
        decide (0 < parts.length), true⟩ := by
  have hcleans : IsCleanComp scen :=
    isCleanComp_of_all_scenChar (scenarioCore_ne_nil hscen)
      (scenarioCore_all_scenChar hscen)
  have hcleanall : ∀ c ∈ scen :: parts, IsCleanComp c := by
    intro c hc
    rcases List.mem_cons.mp hc with rfl | hm
    · exact hcleans
    · exact hcleanp c hm
  have hrstrip : pyRstripChars ['/', '\\'] (joinChar '/' (scen :: parts)) =
      joinChar '/' (scen :: parts) := by
    refine pyRstripChars_eq_self ?_
    intro c hc
    have hlastc : (scen :: parts).getLast? =
        some ((scen :: parts).getLast (by simp)) :=
      List.getLast?_eq_getLast_of_ne_nil (by simp)
    rw [joinChar_getLast? hlastc (fun x hx => (hcleanall x hx).1)] at hc
    have hLmem : (scen :: parts).getLast (by simp) ∈ scen :: parts :=
      List.getLast_mem (by simp)
    have hLne : (scen :: parts).getLast (by simp) ≠ [] :=
      (hcleanall _ hLmem).1
    rw [List.getLast?_eq_getLast_of_ne_nil hLne] at hc
    have hcm : c ∈ (scen :: parts).getLast (by simp) := by
      rw [← Option.some_inj.mp hc]
      exact List.getLast_mem hLne
    intro hmem
    simp only [List.mem_cons, List.not_mem_nil, or_false] at hmem
    rcases hmem with rfl | rfl
    · exact (hcleanall _ hLmem).2.2.2 hcm
    · exact hnb _ hLmem hcm
  have hnorm : pyNormpath (joinChar '/' (scen :: parts)) =
      joinChar '/' (scen :: parts) :=
    pyNormpath_joinChar (by simp) hcleanall
  have hrel : pyRelpath (joinChar '/' (scen :: parts)) scen =
      .ok (if parts = [] then ['.'] else joinChar '/' parts) := by
    have h2 : scen :: parts = [scen] ++ parts := by simp
    rw [h2]
    exact pyRelpath_joinChar [scen] parts (by simp)
      (fun c hc => by rw [List.mem_singleton.mp hc]; exact hcleans) hcleanp
  have hscenbase : pyBasename scen = scen := pyBasename_no_slash hcleans.2.2.2
  have hscenpat : scenarioPat (pyBasename scen) = true := by
    rw [hscenbase]
    exact pyMatchDollar_of_core hscen
  unfold detect_scenario_from_basepath
  rw [hrstrip, hnorm]
  rw [if_neg (fun hl => (splitOnChar_ne_nil '/' _) (List.length_eq_zero.mp hl))]
  rw [detectLoop_chain (joinChar '/' (scen :: parts)) scen parts 10 0 _
    (by omega) hcleanall hnoscen]
  rw [show joinChar '/' [scen] = scen from rfl]
  obtain ⟨f, hf⟩ : ∃ f, 10 - parts.length = f + 1 := ⟨9 - parts.length, by omega⟩
  rw [hf]
  rcases hp : parts with _ | ⟨q, qs⟩
  · rw [hp] at hrel
    rw [if_pos rfl] at hrel
    rw [detectLoop_succ_accept_dot _ f _ scen _ hcleans.1 hscenpat hrel]
    rw [hscenbase]
    simp
  · rw [← hp]
    have hpne : parts ≠ [] := by rw [hp]; simp
    have hreln : pyRelpath (joinChar '/' (scen :: parts)) scen =
        .ok (joinChar '/' parts) := by
      rw [hrel, if_neg hpne]
    rw [detectLoop_succ_accept_rel _ f _ scen _ (joinChar '/' parts)
      hcleans.1 hscenpat hreln (hhead hpne)
      (by rw [splitOnChar_joinChar hpne
        (fun c hc => (hcleanp c hc).2.2.2)]; exact hvalid)]
    rw [hscenbase]
    rw [if_neg hpne]
    have hlb : (0 + parts.length) = parts.length := by omega
    rw [hlb]

lemma prefixDigitsCore_ne_nil {letter : Char} {s : PyStr}
    (h : prefixDigitsCore letter s = true) : s ≠ [] := by
  obtain ⟨ds, rfl, _, _⟩ := prefixDigitsCore_shape h
  simp

lemma clean_of_buildingCore {p : PyStr} (h : buildingCore p = true) :
    IsCleanComp p :=
  isCleanComp_of_all_scenChar (buildingCore_ne_nil h)
    (buildingCore_all_scenChar h)

lemma clean_of_prefixDigitsCore {letter : Char} {s : PyStr}
    (hl : scenChar letter = true) (h : prefixDigitsCore letter s = true) :
    IsCleanComp s :=
  isCleanComp_of_all_scenChar (prefixDigitsCore_ne_nil h)
    (prefixDigitsCore_all_scenChar hl h)

lemma validate_one {p1 : PyStr} (hb : buildingCore p1 = true) :
    validate_structure_parts [p1] = true := by
  have hbp : buildingPat p1 = true := pyMatchDollar_of_core hb
  simp [validate_structure_parts, hbp]

lemma validate_two {p1 p2 : PyStr} (hb : buildingCore p1 = true)
    (he : prefixDigitsCore 'e' p2 = true) :
    validate_structure_parts [p1, p2] = true := by
  have hbp : buildingPat p1 = true := pyMatchDollar_of_core hb
  have hep : errorRatePat p2 = true := pyMatchDollar_of_core he
  simp [validate_structure_parts, hbp, hep]

lemma validate_three {p1 p2 p3 : PyStr} (hb : buildingCore p1 = true)
    (he : prefixDigitsCore 'e' p2 = true)
    (hr : prefixDigitsCore 'r' p3 = true) :
    validate_structure_parts [p1, p2, p3] = true := by
  have hbp : buildingPat p1 = true := pyMatchDollar_of_core hb
  have hep : errorRatePat p2 = true := pyMatchDollar_of_core he
  have hrp : txRangePat p3 = true := pyMatchDollar_of_core hr
  simp [validate_structure_parts, hbp, hep, hrp]

lemma join_building_ne_dot {p1 : PyStr} (rest : List PyStr)
    (hb : buildingCore p1 = true) : joinChar '/' (p1 :: rest) ≠ ['.'] := by
  rcases buildingCore_shape hb with rfl | rfl
  · rw [show pstr "b0" = ['b', '0'] from rfl]
    obtain ⟨r, hr⟩ := @joinChar_head_cons '/' 'b' ['0'] rest
    rw [hr]
    simp
  · rw [show pstr "b1" = ['b', '1'] from rfl]
    obtain ⟨r, hr⟩ := @joinChar_head_cons '/' 'b' ['1'] rest
    rw [hr]
    simp

/-- C5 (amended): a CSV path fewer than 5 segments below a valid scenario
directory (junction and deeper levels missing, the present segments
conforming) parses without raising to a tuple in which each missing field
among `txRange`, `junction`, `protocol` holds `"unknown"`, while `cw`
holds the sentinel `"none"` (the code writes `"none"`, not `"unknown"`,
whenever the cw level is absent). -/
theorem parse_csv_truncated_path (scen : PyStr) (parts : List PyStr)
    (fname : PyStr)
    (hscen : scenarioCore scen = true)
    (hlen : parts.length ≤ 3)
    (hparts : (parts.zip
        [buildingCore, prefixDigitsCore 'e', prefixDigitsCore 'r']).all
        (fun pp => pp.2 pp.1) = true)
    (hfcsv : pyEndswith fname (pstr ".csv") = true)
    (hfchars : ∀ c ∈ fname, c ≠ '/' ∧ c ≠ '\\' ∧ c ≠ '\n') :
    parse_csv_path_structure (joinChar '/' (scen :: parts ++ [fname])) =
      .ok (some ⟨scen,
        parts.getD 0 (pstr "unknown"),
        parts.getD 1 (pstr "unknown"),
        parts.getD 2 (pstr "unknown"),
        pstr "unknown", pstr "none", pstr "unknown",
        fname, joinChar '/' (scen :: parts ++ [fname])⟩) := by
  have hcleans : IsCleanComp scen :=
    isCleanComp_of_all_scenChar (scenarioCore_ne_nil hscen)
      (scenarioCore_all_scenChar hscen)
  have hnoslash : '/' ∉ fname := fun hm => (hfchars '/' hm).1 rfl
  have hsnb : '\\' ∉ scen :=
    scenChar_not_backslash (scenarioCore_all_scenChar hscen)
  rcases parts with _ | ⟨p1, _ | ⟨p2, _ | ⟨p3, _ | ⟨p4, rest⟩⟩⟩⟩
  · -- no segments below the scenario directory
    have hdetect := detect_below_scenario scen [] hscen (by simp) (by simp)
      (by
        intro p hp
        rw [List.mem_singleton.mp hp]
        exact hsnb)
      (by decide) (by intro h; exact absurd rfl h) (by simp)
    have hrepl : replaceChar '\\' '/' (joinChar '/' [scen, fname]) =
        joinChar '/' [scen, fname] := by
      refine replaceChar_eq_self ?_
      intro hmem
      rcases mem_joinChar hmem with he | ⟨p, hp, hcp⟩
      · exact absurd he (by decide)
      · rcases List.mem_cons.mp hp with rfl | hp2
        · exact hsnb hcp
        · rw [List.mem_singleton.mp hp2] at hcp
          exact (hfchars _ hcp).2.1 rfl
    have hsplit := @pySplit_joinChar [scen] fname (by simp)
      (fun c hc => by
        rw [List.mem_singleton.mp hc]
        exact ⟨hcleans.1, hcleans.2.2.2⟩) hnoslash
    simp only [List.cons_append, List.nil_append] at hsplit ⊢
    have hdir : pyDirname (joinChar '/' [scen, fname]) = joinChar '/' [scen] :=
      congrArg Prod.fst hsplit
    have hbase : pyBasename (joinChar '/' [scen, fname]) = fname :=
      congrArg Prod.snd hsplit
    unfold parse_csv_path_structure pcpsBody
    rw [hrepl]
    dsimp only
    rw [hdir, hbase, hfcsv, hdetect]
    simp
  · -- one segment (building) present
    simp only [List.zip_cons_cons, List.zip_nil_left, List.all_cons,
      List.all_nil, Bool.and_true] at hparts
    have hb : buildingCore p1 = true := hparts
    have hc1 : IsCleanComp p1 := clean_of_buildingCore hb
    have h1nb : '\\' ∉ p1 :=
      scenChar_not_backslash (buildingCore_all_scenChar hb)
    have hdetect := detect_below_scenario scen [p1] hscen
      (by
        intro p hp
        rw [List.mem_singleton.mp hp]
        exact hc1)
      (by
        intro p hp
        rw [List.mem_singleton.mp hp]
        exact scenarioPat_of_buildingCore hb)
      (by
        intro p hp
        rcases List.mem_cons.mp hp with rfl | hp2
        · exact hsnb
        · rw [List.mem_singleton.mp hp2]
          exact h1nb)
      (validate_one hb) (fun _ => join_building_ne_dot [] hb) (by simp)
    have hrepl : replaceChar '\\' '/' (joinChar '/' [scen, p1, fname]) =
        joinChar '/' [scen, p1, fname] := by
      refine replaceChar_eq_self ?_
      intro hmem
      rcases mem_joinChar hmem with he | ⟨p, hp, hcp⟩
      · exact absurd he (by decide)
      · rcases List.mem_cons.mp hp with rfl | hp2
        · exact hsnb hcp
        · rcases List.mem_cons.mp hp2 with rfl | hp3
          · exact h1nb hcp
          · rw [List.mem_singleton.mp hp3] at hcp
            exact (hfchars _ hcp).2.1 rfl
    have hsplit := @pySplit_joinChar [scen, p1] fname (by simp)
      (fun c hc => by
        rcases List.mem_cons.mp hc with rfl | hm2
        · exact ⟨hcleans.1, hcleans.2.2.2⟩
        · rw [List.mem_singleton.mp hm2]
          exact ⟨hc1.1, hc1.2.2.2⟩) hnoslash
    have hsp1 : splitOnChar '/' p1 = [p1] := splitOnChar_not_mem hc1.2.2.2
    simp only [List.cons_append, List.nil_append] at hsplit ⊢
    have hdir : pyDirname (joinChar '/' [scen, p1, fname]) =
        joinChar '/' [scen, p1] := congrArg Prod.fst hsplit
    have hbase : pyBasename (joinChar '/' [scen, p1, fname]) = fname :=
      congrArg Prod.snd hsplit
    unfold parse_csv_path_structure pcpsBody
    rw [hrepl]
    dsimp only
    rw [hdir, hbase, hfcsv, hdetect]
    simp [joinChar, hsp1, hc1.1]
  · -- two segments (building, error rate) present
    simp only [List.zip_cons_cons, List.zip_nil_left, List.all_cons,
      List.all_nil, Bool.and_true, Bool.and_eq_true] at hparts
    obtain ⟨hb, he⟩ := hparts
    have hc1 : IsCleanComp p1 := clean_of_buildingCore hb
    have hc2 : IsCleanComp p2 := clean_of_prefixDigitsCore (by decide) he
    have h1nb : '\\' ∉ p1 :=
      scenChar_not_backslash (buildingCore_all_scenChar hb)
    have h2nb : '\\' ∉ p2 :=
      scenChar_not_backslash (prefixDigitsCore_all_scenChar (by decide) he)
    have hdetect := detect_below_scenario scen [p1, p2] hscen
      (by
        intro p hp
        rcases List.mem_cons.mp hp with rfl | hp2
        · exact hc1
        · rw [List.mem_singleton.mp hp2]
          exact hc2)
      (by
        intro p hp
        rcases List.mem_cons.mp hp with rfl | hp2
        · exact scenarioPat_of_buildingCore hb
        · rw [List.mem_singleton.mp hp2]
          exact scenarioPat_of_prefixDigitsCore (by decide) he)
      (by
        intro p hp
        rcases List.mem_cons.mp hp with rfl | hp2
        · exact hsnb
        · rcases List.mem_cons.mp hp2 with rfl | hp3
          · exact h1nb
          · rw [List.mem_singleton.mp hp3]
            exact h2nb)
      (validate_two hb he) (fun _ => join_building_ne_dot [p2] hb) (by simp)
    have hrepl : replaceChar '\\' '/' (joinChar '/' [scen, p1, p2, fname]) =
        joinChar '/' [scen, p1, p2, fname] := by
      refine replaceChar_eq_self ?_
      intro hmem
      rcases mem_joinChar hmem with he2 | ⟨p, hp, hcp⟩
      · exact absurd he2 (by decide)
      · rcases List.mem_cons.mp hp with rfl | hp2
        · exact hsnb hcp
        · rcases List.mem_cons.mp hp2 with rfl | hp3
          · exact h1nb hcp
          · rcases List.mem_cons.mp hp3 with rfl | hp4
            · exact h2nb hcp
            · rw [List.mem_singleton.mp hp4] at hcp
              exact (hfchars _ hcp).2.1 rfl
    have hsplit := @pySplit_joinChar [scen, p1, p2] fname (by simp)
      (fun c hc => by
        rcases List.mem_cons.mp hc with rfl | hm2
        · exact ⟨hcleans.1, hcleans.2.2.2⟩
        · rcases List.mem_cons.mp hm2 with rfl | hm3
          · exact ⟨hc1.1, hc1.2.2.2⟩
          · rw [List.mem_singleton.mp hm3]
            exact ⟨hc2.1, hc2.2.2.2⟩) hnoslash
    have hsp12 : splitOnChar '/' (joinChar '/' [p1, p2]) = [p1, p2] :=
      splitOnChar_joinChar (by simp) (by
        intro c hc
        rcases List.mem_cons.mp hc with rfl | hm2
        · exact hc1.2.2.2
        · rw [List.mem_singleton.mp hm2]
          exact hc2.2.2.2)
    have hj12 : joinChar '/' [p1, p2] ≠ [] :=
      joinChar_ne_nil (by simp) (by
        intro c hc
        rcases List.mem_cons.mp hc with rfl | hm2
        · exact hc1.1
        · rw [List.mem_singleton.mp hm2]
          exact hc2.1)
    simp only [List.cons_append, List.nil_append] at hsplit ⊢
    have hdir : pyDirname (joinChar '/' [scen, p1, p2, fname]) =
        joinChar '/' [scen, p1, p2] := congrArg Prod.fst hsplit
    have hbase : pyBasename (joinChar '/' [scen, p1, p2, fname]) = fname :=
      congrArg Prod.snd hsplit
    unfold parse_csv_path_structure pcpsBody
    rw [hrepl]
    dsimp only
    rw [hdir, hbase, hfcsv, hdetect]
    simp [hsp12, hj12, hc1.1]
  · -- three segments (building, error rate, txRange) present
    simp only [List.zip_cons_cons, List.zip_nil_left, List.all_cons,
      List.all_nil, Bool.and_true, Bool.and_eq_true] at hparts
    obtain ⟨hb, he, hr⟩ := hparts
    have hc1 : IsCleanComp p1 := clean_of_buildingCore hb
    have hc2 : IsCleanComp p2 := clean_of_prefixDigitsCore (by decide) he
    have hc3 : IsCleanComp p3 := clean_of_prefixDigitsCore (by decide) hr
    have h1nb : '\\' ∉ p1 :=
      scenChar_not_backslash (buildingCore_all_scenChar hb)
    have h2nb : '\\' ∉ p2 :=
      scenChar_not_backslash (prefixDigitsCore_all_scenChar (by decide) he)
    have h3nb : '\\' ∉ p3 :=
      scenChar_not_backslash (prefixDigitsCore_all_scenChar (by decide) hr)
    have hdetect := detect_below_scenario scen [p1, p2, p3] hscen
      (by
        intro p hp
        rcases List.mem_cons.mp hp with rfl | hp2
        · exact hc1
        · rcases List.mem_cons.mp hp2 with rfl | hp3
          · exact hc2
          · rw [List.mem_singleton.mp hp3]
            exact hc3)
      (by
        intro p hp
        rcases List.mem_cons.mp hp with rfl | hp2
        · exact scenarioPat_of_buildingCore hb
        · rcases List.mem_cons.mp hp2 with rfl | hp3
          · exact scenarioPat_of_prefixDigitsCore (by decide) he
          · rw [List.mem_singleton.mp hp3]
            exact scenarioPat_of_prefixDigitsCore (by decide) hr)
      (by
        intro p hp
        rcases List.mem_cons.mp hp with rfl | hp2
        · exact hsnb
        · rcases List.mem_cons.mp hp2 with rfl | hp3
          · exact h1nb
          · rcases List.mem_cons.mp hp3 with rfl | hp4
            · exact h2nb
            · rw [List.mem_singleton.mp hp4]
              exact h3nb)
      (validate_three hb he hr) (fun _ => join_building_ne_dot [p2, p3] hb)
      (by simp)
    have hrepl : replaceChar '\\' '/'
        (joinChar '/' [scen, p1, p2, p3, fname]) =
        joinChar '/' [scen, p1, p2, p3, fname] := by
      refine replaceChar_eq_self ?_
      intro hmem
      rcases mem_joinChar hmem with he2 | ⟨p, hp, hcp⟩
      · exact absurd he2 (by decide)
      · rcases List.mem_cons.mp hp with rfl | hp2
        · exact hsnb hcp
        · rcases List.mem_cons.mp hp2 with rfl | hp3
          · exact h1nb hcp
          · rcases List.mem_cons.mp hp3 with rfl | hp4
            · exact h2nb hcp
            · rcases List.mem_cons.mp hp4 with rfl | hp5
              · exact h3nb hcp
              · rw [List.mem_singleton.mp hp5] at hcp
                exact (hfchars _ hcp).2.1 rfl
    have hsplit := @pySplit_joinChar [scen, p1, p2, p3] fname
      (by simp)
      (fun c hc => by
        rcases List.mem_cons.mp hc with rfl | hm2
        · exact ⟨hcleans.1, hcleans.2.2.2⟩
        · rcases List.mem_cons.mp hm2 with rfl | hm3
          · exact ⟨hc1.1, hc1.2.2.2⟩
          · rcases List.mem_cons.mp hm3 with rfl | hm4
            · exact ⟨hc2.1, hc2.2.2.2⟩
            · rw [List.mem_singleton.mp hm4]
              exact ⟨hc3.1, hc3.2.2.2⟩) hnoslash
    have hsp123 : splitOnChar '/' (joinChar '/' [p1, p2, p3]) = [p1, p2, p3] :=
      splitOnChar_joinChar (by simp) (by
        intro c hc
        rcases List.mem_cons.mp hc with rfl | hm2
        · exact hc1.2.2.2
        · rcases List.mem_cons.mp hm2 with rfl | hm3
          · exact hc2.2.2.2
          · rw [List.mem_singleton.mp hm3]
            exact hc3.2.2.2)
    have hj123 : joinChar '/' [p1, p2, p3] ≠ [] :=
      joinChar_ne_nil (by simp) (by
        intro c hc
        rcases List.mem_cons.mp hc with rfl | hm2
        · exact hc1.1
        · rcases List.mem_cons.mp hm2 with rfl | hm3
          · exact hc2.1
          · rw [List.mem_singleton.mp hm3]
            exact hc3.1)
    simp only [List.cons_append, List.nil_append] at hsplit ⊢
    have hdir : pyDirname (joinChar '/' [scen, p1, p2, p3, fname]) =
        joinChar '/' [scen, p1, p2, p3] := congrArg Prod.fst hsplit
    have hbase : pyBasename (joinChar '/' [scen, p1, p2, p3, fname]) = fname :=
      congrArg Prod.snd hsplit
    unfold parse_csv_path_structure pcpsBody
    rw [hrepl]
    dsimp only
    rw [hdir, hbase, hfcsv, hdetect]
    simp [hsp123, hj123, hc1.1]
  · simp at hlen

/-- C5 counterexample: for the truncated path `Padova-25/b0/e0/x.csv`
(junction level and deeper absent) the parser returns `cw = "none"`,
not `"unknown"` as stated for the missing levels. -/
theorem parse_csv_truncated_cw_counterexample :
    parse_csv_path_structure (pstr "Padova-25/b0/e0/x.csv") =
      .ok (some ⟨pstr "Padova-25", pstr "b0", pstr "e0", pstr "unknown",
        pstr "unknown", pstr "none", pstr "unknown", pstr "x.csv",
        pstr "Padova-25/b0/e0/x.csv"⟩) ∧
    pstr "none" ≠ pstr "unknown" := by
  exact ⟨by decide, by decide⟩

/-- C5 witness: the truncated-path theorem applied at the concrete path
`Padova-25/b0/e0/x.csv`. -/
theorem parse_csv_truncated_path_witness :
    parse_csv_path_structure
        (joinChar '/' (pstr "Padova-25" ::
          [pstr "b0", pstr "e0"] ++ [pstr "x.csv"])) =
      .ok (some ⟨pstr "Padova-25", pstr "b0", pstr "e0", pstr "unknown",
        pstr "unknown", pstr "none", pstr "unknown", pstr "x.csv",
        joinChar '/' (pstr "Padova-25" ::
          [pstr "b0", pstr "e0"] ++ [pstr "x.csv"])⟩) :=
  parse_csv_truncated_path (pstr "Padova-25")
    [pstr "b0", pstr "e0"] (pstr "x.csv")
    (by decide) (by decide) (by decide) (by decide) (by decide)

lemma writeNodeToFile_eq (nodeId : Nat) (x y z : PyStr) :
    writeNodeToFile nodeId x y z =
      mobLineX nodeId x ++ (mobLineY nodeId y ++ (mobLineZ nodeId z ++
        mobLine4 nodeId)) := rfl

lemma goodTok_ne_nil {s : PyStr} (h : goodTok s = true) : s ≠ [] := by
  rcases s with _ | ⟨c, t⟩
  · simp [goodTok] at h
  · simp

lemma goodTok_no_space {s : PyStr} (h : goodTok s = true) :
    ∀ c ∈ s, isPySpace c = false := by
  intro c hc
  simp only [goodTok, Bool.and_eq_true, List.all_eq_true] at h
  simpa using h.1.2 c hc

lemma goodTok_parse {s : PyStr} (h : goodTok s = true) :
    pyFloatParse s = .ok (floatValD s) := by
  simp only [goodTok, Bool.and_eq_true] at h
  rcases hp : pyFloatParse s with e | q
  · rw [hp] at h
    simp [Except.toOption] at h
  · simp only [floatValD]
    rw [hp]
    rfl

lemma natToDec_mem_digit {c : Char} {n : Nat} (h : c ∈ natToDec n) :
    isAsciiDigit c = true :=
  List.all_eq_true.mp (natToDec_all_digits n) c h

lemma natToDec_not_mem {c : Char} (hc : isAsciiDigit c = false) (n : Nat) :
    c ∉ natToDec n := fun h => by rw [natToDec_mem_digit h] at hc; cases hc

/-- `readlines` on a newline-terminated first line. -/
lemma pyReadlines_line (l rest : PyStr) (hl : '\n' ∉ l) :
    pyReadlines (l ++ '\n' :: rest) = (l ++ ['\n']) :: pyReadlines rest := by
  induction l with
  | nil => simp [pyReadlines]
  | cons c cs ih =>
    simp only [List.mem_cons, not_or] at hl
    rw [List.cons_append, pyReadlines, ih hl.2]
    simp [Ne.symm hl.1]

/-- `strip` of a line with a non-space first character, a non-space last
character and a final newline drops exactly the newline. -/
lemma pyStrip_core (c0 : Char) (t : PyStr) (cl : Char)
    (hc0 : isPySpace c0 = false) (hlast : (c0 :: t).getLast? = some cl)
    (hcl : isPySpace cl = false) :
    pyStrip ((c0 :: t) ++ ['\n']) = c0 :: t := by
  have hrev : (c0 :: t).reverse.head? = some cl := by
    rw [List.head?_reverse]; exact hlast
  obtain ⟨r, hr⟩ : ∃ r, (c0 :: t).reverse = cl :: r := by
    rcases hrl : (c0 :: t).reverse with _ | ⟨d, r⟩
    · rw [hrl] at hrev; cases hrev
    · rw [hrl] at hrev
      simp only [List.head?_cons, Option.some.injEq] at hrev
      exact ⟨r, by rw [hrev]⟩
  have hdrop : ((c0 :: t) ++ ['\n']).dropWhile isPySpace = (c0 :: t) ++ ['\n'] := by
    rw [List.cons_append, List.dropWhile_cons]
    simp [hc0]
  rw [pyStrip, hdrop, rdropWhile, List.reverse_append, hr]
  have h1 : List.dropWhile isPySpace (List.reverse ['\n'] ++ cl :: r) =
      cl :: r := by
    simp [List.dropWhile_cons, hcl, (by decide : isPySpace '\n' = true)]
  rw [h1, ← hr, List.reverse_reverse]

/-- `strip` of a whitespace-free string is the identity. -/
lemma pyStrip_eq_self {s : PyStr} (h : ∀ c ∈ s, isPySpace c = false) :
    pyStrip s = s := by
  have hdrop : s.dropWhile isPySpace = s := by
    rcases s with _ | ⟨c, t⟩
    · rfl
    · rw [List.dropWhile_cons, h c (by simp)]
      simp
  rw [pyStrip, hdrop, rdropWhile]
  have hdrop2 : s.reverse.dropWhile isPySpace = s.reverse := by
    rcases hs : s.reverse with _ | ⟨c, t⟩
    · rfl
    · rw [List.dropWhile_cons, h c (by rw [← List.mem_reverse, hs]; simp)]
      simp
  rw [hdrop2, List.reverse_reverse]

/-- `strip` of a whitespace-free nonempty token plus a trailing newline. -/
lemma pyStrip_tok {y : PyStr} (hne : y ≠ [])
    (h : ∀ c ∈ y, isPySpace c = false) : pyStrip (y ++ ['\n']) = y := by
  obtain ⟨c, t, rfl⟩ := List.exists_cons_of_ne_nil hne
  obtain ⟨l, cl, hcl⟩ := (c :: t).eq_nil_or_concat.resolve_left (by simp)
  rw [List.concat_eq_append] at hcl
  refine pyStrip_core c t cl (h c (by simp)) ?_ ?_
  · rw [hcl]; exact List.getLast?_concat _
  · exact h cl (by rw [hcl]; simp)

/-- The number of chunks `split` returns is the separator count plus one. -/
lemma splitOnChar_length (sep : Char) (s : PyStr) :
    (splitOnChar sep s).length = s.count sep + 1 := by
  induction s with
  | nil => rfl
  | cons c cs ih =>
    rcases h : splitOnChar sep cs with _ | ⟨hd, tl⟩
    · exact absurd h (splitOnChar_ne_nil sep cs)
    · rw [h] at ih
      by_cases hc : c = sep
      · subst hc
        simp [splitOnChar, h, List.count_cons] at ih ⊢
        omega
      · simp [splitOnChar, h, hc, List.count_cons] at ih ⊢
        omega

lemma notMemAppend {c : Char} {a b : PyStr} (ha : c ∉ a) (hb : c ∉ b) :
    c ∉ a ++ b := fun h => (List.mem_append.mp h).elim ha hb

lemma digits_not_mem {c : Char} {dig : PyStr}
    (hdig : dig.all isAsciiDigit = true) (hc : isAsciiDigit c = false) :
    c ∉ dig := fun h => by
  rw [List.all_eq_true.mp hdig c h] at hc; cases hc

lemma mobLineX_shape (n : Nat) (x : PyStr) :
    mobLineX n x = (((pstr "$node_(" ++ natToDec n) ++
      ([')', ' ', 's', 'e', 't', ' ', 'X', '_', ' '] : PyStr)) ++ x) ++
      ['\n'] := rfl

lemma mobLineY_shape (n : Nat) (y : PyStr) :
    mobLineY n y = (((pstr "$node_(" ++ natToDec n) ++
      ([')', ' ', 's', 'e', 't', ' ', 'Y', '_', ' '] : PyStr)) ++ y) ++
      ['\n'] := rfl

lemma mobLineZ_shape (n : Nat) (z : PyStr) :
    mobLineZ n z = (((pstr "$node_(" ++ natToDec n) ++
      ([')', ' ', 's', 'e', 't', ' ', 'Z', '_', ' '] : PyStr)) ++ z) ++
      ['\n'] := rfl

lemma mobLine4_shape (n : Nat) :
    mobLine4 n = ((pstr "$ns_ at 0.0 \"$node_(" ++ natToDec n) ++
      ([')', ' ', 's', 'e', 't', 'd', 'e', 's', 't', ' ', '0', ' ', '0',
        ' ', '0', '.', '0', '0', '\"'] : PyStr)) ++ ['\n'] := by
  show (pstr "$ns_ at 0.0 \"$node_(" ++ natToDec n) ++
      (([')', ' ', 's', 'e', 't', 'd', 'e', 's', 't', ' ', '0', ' ', '0',
        ' ', '0', '.', '0', '0', '\"'] : PyStr) ++ ['\n']) = _
  exact (List.append_assoc _ _ _).symm

/-- Splitting the stripped X/Y/Z line on spaces gives four tokens. -/
lemma mobLine_strip_split (dig : PyStr) (lc : Char) (x : PyStr)
    (hdig : dig.all isAsciiDigit = true) (hlc : isPySpace lc = false)
    (hxne : x ≠ []) (hx : ∀ c ∈ x, isPySpace c = false) :
    splitOnChar ' ' (pyStrip ((((pstr "$node_(" ++ dig) ++
        ([')', ' ', 's', 'e', 't', ' ', lc, '_', ' '] : PyStr)) ++ x) ++
        ['\n'])) =
      [(pstr "$node_(" ++ dig) ++ [')'], ['s', 'e', 't'], [lc, '_'], x] := by
  have hxsp : ' ' ∉ x := fun hm => absurd (hx ' ' hm) (by decide)
  have hlcne : ' ' ≠ lc := fun h => absurd hlc (by rw [← h]; decide)
  obtain ⟨x', cl, hxc⟩ := x.eq_nil_or_concat.resolve_left hxne
  rw [List.concat_eq_append] at hxc
  subst hxc
  have hcl : isPySpace cl = false := hx cl (by simp)
  have hlast : ('$' :: (((pstr "node_(" ++ dig) ++
      ([')', ' ', 's', 'e', 't', ' ', lc, '_', ' '] : PyStr)) ++
      (x' ++ [cl]))).getLast? = some cl := by
    have hshape : ('$' :: (((pstr "node_(" ++ dig) ++
        ([')', ' ', 's', 'e', 't', ' ', lc, '_', ' '] : PyStr)) ++
        (x' ++ [cl]))) = ('$' :: (((pstr "node_(" ++ dig) ++
        ([')', ' ', 's', 'e', 't', ' ', lc, '_', ' '] : PyStr)) ++ x')) ++
        [cl] := by
      simp [List.append_assoc]
    rw [hshape]
    exact List.getLast?_concat _
  have hstrip : pyStrip (((( pstr "$node_(" ++ dig) ++
      ([')', ' ', 's', 'e', 't', ' ', lc, '_', ' '] : PyStr)) ++
      (x' ++ [cl])) ++ ['\n']) = (((pstr "$node_(" ++ dig) ++
      ([')', ' ', 's', 'e', 't', ' ', lc, '_', ' '] : PyStr)) ++
      (x' ++ [cl])) :=
    pyStrip_core '$' (((pstr "node_(" ++ dig) ++
      ([')', ' ', 's', 'e', 't', ' ', lc, '_', ' '] : PyStr)) ++
      (x' ++ [cl])) cl (by decide) hlast hcl
  rw [hstrip]
  have hshape2 : (((pstr "$node_(" ++ dig) ++
      ([')', ' ', 's', 'e', 't', ' ', lc, '_', ' '] : PyStr)) ++
      (x' ++ [cl])) = ((pstr "$node_(" ++ dig) ++ [')']) ++
      ' ' :: ((['s', 'e', 't'] : PyStr) ++
      ' ' :: (([lc, '_'] : PyStr) ++ ' ' :: (x' ++ [cl]))) := by
    simp [List.append_assoc]
  rw [hshape2]
  have ht0 : ' ' ∉ (pstr "$node_(" ++ dig) ++ [')'] :=
    notMemAppend (notMemAppend (by decide)
      (digits_not_mem hdig (by decide))) (by decide)
  have hlab : ' ' ∉ ([lc, '_'] : PyStr) := by
    intro hm
    rcases List.mem_cons.mp hm with h | hm2
    · exact hlcne h
    · rcases List.mem_cons.mp hm2 with h | hm3
      · exact absurd h (by decide)
      · cases hm3
  rw [splitOnChar_append_sep _ ht0, splitOnChar_append_sep _ (by decide),
    splitOnChar_append_sep _ hlab, splitOnChar_not_mem hxsp]

/-- Splitting the raw (unstripped) Y/Z line on spaces: the last token keeps
its newline. -/
lemma mobLine_raw_split (dig : PyStr) (lc : Char) (y : PyStr)
    (hdig : dig.all isAsciiDigit = true) (hlc : isPySpace lc = false)
    (hy : ∀ c ∈ y, isPySpace c = false) :
    splitOnChar ' ' ((((pstr "$node_(" ++ dig) ++
        ([')', ' ', 's', 'e', 't', ' ', lc, '_', ' '] : PyStr)) ++ y) ++
        ['\n']) =
      [(pstr "$node_(" ++ dig) ++ [')'], ['s', 'e', 't'], [lc, '_'],
        y ++ ['\n']] := by
  have hysp : ' ' ∉ y := fun hm => absurd (hy ' ' hm) (by decide)
  have hlcne : ' ' ≠ lc := fun h => absurd hlc (by rw [← h]; decide)
  have hshape : (((pstr "$node_(" ++ dig) ++
      ([')', ' ', 's', 'e', 't', ' ', lc, '_', ' '] : PyStr)) ++ y) ++
      ['\n'] = ((pstr "$node_(" ++ dig) ++ [')']) ++
      ' ' :: ((['s', 'e', 't'] : PyStr) ++
      ' ' :: (([lc, '_'] : PyStr) ++ ' ' :: (y ++ ['\n']))) := by
    simp [List.append_assoc]
  rw [hshape]
  have ht0 : ' ' ∉ (pstr "$node_(" ++ dig) ++ [')'] :=
    notMemAppend (notMemAppend (by decide)
      (digits_not_mem hdig (by decide))) (by decide)
  have hlab : ' ' ∉ ([lc, '_'] : PyStr) := by
    intro hm
    rcases List.mem_cons.mp hm with h | hm2
    · exact hlcne h
    · rcases List.mem_cons.mp hm2 with h | hm3
      · exact absurd h (by decide)
      · cases hm3
  rw [splitOnChar_append_sep _ ht0, splitOnChar_append_sep _ (by decide),
    splitOnChar_append_sep _ hlab,
    splitOnChar_not_mem (notMemAppend hysp (by decide))]

/-- The stripped `setdest` line splits into eight tokens. -/
lemma mobLine4_split_length (dig : PyStr)
    (hdig : dig.all isAsciiDigit = true) :
    (splitOnChar ' ' (pyStrip (((pstr "$ns_ at 0.0 \"$node_(" ++ dig) ++
      ([')', ' ', 's', 'e', 't', 'd', 'e', 's', 't', ' ', '0', ' ', '0',
        ' ', '0', '.', '0', '0', '\"'] : PyStr)) ++ ['\n']))).length = 8 := by
  have hlast : ('$' :: ((pstr "ns_ at 0.0 \"$node_(" ++ dig) ++
      ([')', ' ', 's', 'e', 't', 'd', 'e', 's', 't', ' ', '0', ' ', '0',
        ' ', '0', '.', '0', '0', '\"'] : PyStr))).getLast? = some '\"' := by
    have hshape : ('$' :: ((pstr "ns_ at 0.0 \"$node_(" ++ dig) ++
        ([')', ' ', 's', 'e', 't', 'd', 'e', 's', 't', ' ', '0', ' ', '0',
          ' ', '0', '.', '0', '0', '\"'] : PyStr))) =
        ('$' :: ((pstr "ns_ at 0.0 \"$node_(" ++ dig) ++
        ([')', ' ', 's', 'e', 't', 'd', 'e', 's', 't', ' ', '0', ' ', '0',
          ' ', '0', '.', '0', '0'] : PyStr))) ++ ['\"'] := by
      simp [List.append_assoc]
    rw [hshape]
    exact List.getLast?_concat _
  have hstrip : pyStrip (((pstr "$ns_ at 0.0 \"$node_(" ++ dig) ++
      ([')', ' ', 's', 'e', 't', 'd', 'e', 's', 't', ' ', '0', ' ', '0',
        ' ', '0', '.', '0', '0', '\"'] : PyStr)) ++ ['\n']) =
      ((pstr "$ns_ at 0.0 \"$node_(" ++ dig) ++
      ([')', ' ', 's', 'e', 't', 'd', 'e', 's', 't', ' ', '0', ' ', '0',
        ' ', '0', '.', '0', '0', '\"'] : PyStr)) :=
    pyStrip_core '$' ((pstr "ns_ at 0.0 \"$node_(" ++ dig) ++
      ([')', ' ', 's', 'e', 't', 'd', 'e', 's', 't', ' ', '0', ' ', '0',
        ' ', '0', '.', '0', '0', '\"'] : PyStr)) '\"' (by decide) hlast
      (by decide)
  rw [hstrip, splitOnChar_length, List.count_append,
    List.count_append]
  rw [List.count_eq_zero.mpr (digits_not_mem hdig (by decide))]
  decide

/-- Splitting the first token of an X/Y/Z line on underscores isolates the
parenthesised node id. -/
lemma t0_id_split (dig : PyStr) (hdig : dig.all isAsciiDigit = true) :
    splitOnChar '_' ((pstr "$node_(" ++ dig) ++ [')']) =
      [pstr "$node", '(' :: (dig ++ [')'])] := by
  have hshape : (pstr "$node_(" ++ dig) ++ [')'] =
      pstr "$node" ++ '_' :: ('(' :: (dig ++ [')'])) := by
    rw [show pstr "$node_(" = pstr "$node" ++ ['_', '('] from by decide]
    simp [List.append_assoc]
  have hparen : '_' ∉ '(' :: (dig ++ [')']) := by
    intro hm
    rcases List.mem_cons.mp hm with h | hm2
    · exact absurd h (by decide)
    · rcases List.mem_append.mp hm2 with h | h
      · exact digits_not_mem hdig (by decide) h
      · rcases List.mem_cons.mp h with h2 | h2
        · exact absurd h2 (by decide)
        · cases h2
  rw [hshape, splitOnChar_append_sep _ (by decide),
    splitOnChar_not_mem hparen]

/-- Stripping the parentheses off the id token recovers the digits. -/
lemma removeChar_id (dig : PyStr) (hdig : dig.all isAsciiDigit = true) :
    removeChar ')' (removeChar '(' ('(' :: (dig ++ [')']))) = dig := by
  have h1 := List.all_eq_true.mp hdig
  have hf1 : dig.filter (fun c => decide (¬ c = '(')) = dig :=
    List.filter_eq_self.mpr (fun c hc => by
      simp only [decide_eq_true_eq]
      intro h; subst h; exact absurd (h1 _ hc) (by decide))
  have hf2 : dig.filter (fun c => decide (¬ c = ')')) = dig :=
    List.filter_eq_self.mpr (fun c hc => by
      simp only [decide_eq_true_eq]
      intro h; subst h; exact absurd (h1 _ hc) (by decide))
  simp only [removeChar, ne_eq, List.filter_cons, List.filter_append]
  simp [hf1, hf2]
  intro a ha
  exact ⟨fun h => by subst h; exact absurd (h1 _ ha) (by decide),
    fun h => by subst h; exact absurd (h1 _ ha) (by decide)⟩

/-- One 4-line node block advances the scan loop by two iterations,
consuming the whole block and recording the node. -/
lemma pnlLoop_block (fuel : Nat) (n : Nat) (x y z : PyStr)
    (restLines : List PyStr) (dict : List (PyStr × Vector))
    (hx : goodTok x = true) (hy : goodTok y = true) (hz : goodTok z = true) :
    pnlLoop (fuel + 2)
      (mobLineX n x :: mobLineY n y :: mobLineZ n z :: mobLine4 n ::
        restLines) dict =
    pnlLoop fuel restLines
      (dictSet dict (natToDec n)
        ⟨floatValD x, floatValD y, floatValD z⟩) := by
  have hdig := natToDec_all_digits n
  have hxns := goodTok_no_space hx
  have hyns := goodTok_no_space hy
  have hzns := goodTok_no_space hz
  have hxne := goodTok_ne_nil hx
  have hyne := goodTok_ne_nil hy
  have hzne := goodTok_ne_nil hz
  have hsx : splitOnChar ' ' (pyStrip (mobLineX n x)) =
      [(pstr "$node_(" ++ natToDec n) ++ [')'], ['s', 'e', 't'],
        ['X', '_'], x] := by
    rw [mobLineX_shape]
    exact mobLine_strip_split _ 'X' x hdig (by decide) hxne hxns
  have hsy : splitOnChar ' ' (mobLineY n y) =
      [(pstr "$node_(" ++ natToDec n) ++ [')'], ['s', 'e', 't'],
        ['Y', '_'], y ++ ['\n']] := by
    rw [mobLineY_shape]
    exact mobLine_raw_split _ 'Y' y hdig (by decide) hyns
  have hsz : splitOnChar ' ' (mobLineZ n z) =
      [(pstr "$node_(" ++ natToDec n) ++ [')'], ['s', 'e', 't'],
        ['Z', '_'], z ++ ['\n']] := by
    rw [mobLineZ_shape]
    exact mobLine_raw_split _ 'Z' z hdig (by decide) hzns
  have hlen4 : (splitOnChar ' ' (pyStrip (mobLine4 n))).length = 8 := by
    rw [mobLine4_shape]
    exact mobLine4_split_length _ hdig
  have hmk : mkVector x y z =
      .ok ⟨floatValD x, floatValD y, floatValD z⟩ := by
    simp [mkVector, goodTok_parse hx, goodTok_parse hy, goodTok_parse hz]
  have step1 := pnlLoop.eq_3 dict (fuel + 1) (mobLineX n x)
      (mobLineY n y :: mobLineZ n z :: mobLine4 n :: restLines)
  rw [hsx] at step1
  simp only [List.getD_cons_zero, List.getD_cons_succ] at step1
  rw [t0_id_split _ hdig] at step1
  simp [removeChar_id _ hdig, pyStrip_tok hyne hyns, pyStrip_tok hzne hzns,
    pyStrip_eq_self hxns, hsy, hsz, hmk] at step1
  have step2 := pnlLoop.eq_3
    (dictSet dict (natToDec n) ⟨floatValD x, floatValD y, floatValD z⟩)
    fuel (mobLine4 n) restLines
  rw [if_pos (by rw [hlen4]; omega)] at step2
  exact step1.trans step2

lemma mobilityLines_nil : mobilityLines [] = [] := rfl

lemma mobilityLines_cons (e : Nat × PyStr × PyStr × PyStr)
    (es : List (Nat × PyStr × PyStr × PyStr)) :
    mobilityLines (e :: es) =
      mobLineX e.1 e.2.1 :: mobLineY e.1 e.2.2.1 :: mobLineZ e.1 e.2.2.2 ::
      mobLine4 e.1 :: mobilityLines es := by
  simp [mobilityLines]

lemma mobilityLines_length (entries : List (Nat × PyStr × PyStr × PyStr)) :
    (mobilityLines entries).length = 4 * entries.length := by
  induction entries with
  | nil => rfl
  | cons e es ih =>
    rw [mobilityLines_cons]
    simp [ih]
    omega

/-- `readlines` recovers the four lines of one node block. -/
lemma pyReadlines_block (n : Nat) (x y z : PyStr) (rest : PyStr)
    (hx : goodTok x = true) (hy : goodTok y = true) (hz : goodTok z = true) :
    pyReadlines (writeNodeToFile n x y z ++ rest) =
      mobLineX n x :: mobLineY n y :: mobLineZ n z :: mobLine4 n ::
        pyReadlines rest := by
  have hxnl : '\n' ∉ x :=
    fun hm => absurd (goodTok_no_space hx '\n' hm) (by decide)
  have hynl : '\n' ∉ y :=
    fun hm => absurd (goodTok_no_space hy '\n' hm) (by decide)
  have hznl : '\n' ∉ z :=
    fun hm => absurd (goodTok_no_space hz '\n' hm) (by decide)
  have hdnl : '\n' ∉ natToDec n := natToDec_not_mem (by decide) n
  have hX : '\n' ∉ ((pstr "$node_(" ++ natToDec n) ++
      ([')', ' ', 's', 'e', 't', ' ', 'X', '_', ' '] : PyStr)) ++ x :=
    notMemAppend (notMemAppend (notMemAppend (by decide) hdnl) (by decide))
      hxnl
  have hY : '\n' ∉ ((pstr "$node_(" ++ natToDec n) ++
      ([')', ' ', 's', 'e', 't', ' ', 'Y', '_', ' '] : PyStr)) ++ y :=
    notMemAppend (notMemAppend (notMemAppend (by decide) hdnl) (by decide))
      hynl
  have hZ : '\n' ∉ ((pstr "$node_(" ++ natToDec n) ++
      ([')', ' ', 's', 'e', 't', ' ', 'Z', '_', ' '] : PyStr)) ++ z :=
    notMemAppend (notMemAppend (notMemAppend (by decide) hdnl) (by decide))
      hznl
  have h4 : '\n' ∉ (pstr "$ns_ at 0.0 \"$node_(" ++ natToDec n) ++
      ([')', ' ', 's', 'e', 't', 'd', 'e', 's', 't', ' ', '0', ' ', '0',
        ' ', '0', '.', '0', '0', '\"'] : PyStr) :=
    notMemAppend (notMemAppend (by decide) hdnl) (by decide)
  have h1 : writeNodeToFile n x y z ++ rest =
      (((pstr "$node_(" ++ natToDec n) ++
        ([')', ' ', 's', 'e', 't', ' ', 'X', '_', ' '] : PyStr)) ++ x) ++
      '\n' :: ((((pstr "$node_(" ++ natToDec n) ++
        ([')', ' ', 's', 'e', 't', ' ', 'Y', '_', ' '] : PyStr)) ++ y) ++
      '\n' :: ((((pstr "$node_(" ++ natToDec n) ++
        ([')', ' ', 's', 'e', 't', ' ', 'Z', '_', ' '] : PyStr)) ++ z) ++
      '\n' :: (((pstr "$ns_ at 0.0 \"$node_(" ++ natToDec n) ++
        ([')', ' ', 's', 'e', 't', 'd', 'e', 's', 't', ' ', '0', ' ', '0',
          ' ', '0', '.', '0', '0', '\"'] : PyStr)) ++
      '\n' :: rest))) := by
    rw [writeNodeToFile_eq, mobLineX_shape, mobLineY_shape, mobLineZ_shape,
      mobLine4_shape]
    simp [List.append_assoc]
  rw [h1, pyReadlines_line _ _ hX, pyReadlines_line _ _ hY,
    pyReadlines_line _ _ hZ, pyReadlines_line _ _ h4,
    mobLineX_shape, mobLineY_shape, mobLineZ_shape, mobLine4_shape]

/-- `readlines` of the written mobility file is the list of blocks. -/
lemma pyReadlines_writeNodes (entries : List (Nat × PyStr × PyStr × PyStr))
    (htok : ∀ e ∈ entries, goodTok e.2.1 = true ∧ goodTok e.2.2.1 = true ∧
      goodTok e.2.2.2 = true) :
    pyReadlines (writeNodesToFile entries) = mobilityLines entries := by
  induction entries with
  | nil => rfl
  | cons e es ih =>
    have he := htok e (by simp)
    have hstep : writeNodesToFile (e :: es) =
        writeNodeToFile e.1 e.2.1 e.2.2.1 e.2.2.2 ++ writeNodesToFile es := by
      simp [writeNodesToFile]
    rw [hstep, pyReadlines_block _ _ _ _ _ he.1 he.2.1 he.2.2,
      ih (fun e' he' => htok e' (by simp [he'])), mobilityLines_cons]

lemma pnlLoop_nil (fuel : Nat) (dict : List (PyStr × Vector)) :
    pnlLoop fuel [] dict = .ok dict := by
  cases fuel <;> rfl

/-- The scan loop over the written blocks accumulates every node. -/
lemma pnlLoop_mobilityLines :
    ∀ (entries : List (Nat × PyStr × PyStr × PyStr)) (fuel : Nat)
      (dict : List (PyStr × Vector)), 2 * entries.length ≤ fuel →
    (∀ e ∈ entries, goodTok e.2.1 = true ∧ goodTok e.2.2.1 = true ∧
      goodTok e.2.2.2 = true) →
    pnlLoop fuel (mobilityLines entries) dict =
      .ok (entries.foldl (fun d e => dictSet d (natToDec e.1)
        ⟨floatValD e.2.1, floatValD e.2.2.1, floatValD e.2.2.2⟩) dict) := by
  intro entries
  induction entries with
  | nil => intro fuel dict _ _; rw [mobilityLines_nil, pnlLoop_nil]; rfl
  | cons e es ih =>
    intro fuel dict hfuel htok
    obtain ⟨k, rfl⟩ : ∃ k, fuel = k + 2 :=
      ⟨fuel - 2, by simp at hfuel; omega⟩
    rw [mobilityLines_cons, pnlLoop_block k e.1 e.2.1 e.2.2.1 e.2.2.2 _ _
      (htok e (by simp)).1 (htok e (by simp)).2.1 (htok e (by simp)).2.2,
      List.foldl_cons]
    exact ih k _ (by simp at hfuel ⊢; omega)
      (fun e' he' => htok e' (by simp [he']))

/-- Updating a key absent from the dictionary appends the pair. -/
lemma dictSet_fresh {α : Type} :
    ∀ (d : List (PyStr × α)) (k : PyStr) (v : α),
    (∀ p ∈ d, p.1 ≠ k) → dictSet d k v = d ++ [(k, v)] := by
  intro d
  induction d with
  | nil => intro k v _; rfl
  | cons p rest ih =>
    intro k v h
    rcases p with ⟨k', v'⟩
    rw [dictSet, if_neg (h (k', v') (by simp)), ih k v
      (fun q hq => h q (by simp [hq]))]
    rfl

/-- Folding fresh, pairwise-distinct keys into a dictionary appends the
corresponding pairs in order. -/
lemma foldl_dictSet_mob :
    ∀ (entries : List (Nat × PyStr × PyStr × PyStr))
      (d : List (PyStr × Vector)),
    (∀ p ∈ d, ∀ e ∈ entries, p.1 ≠ natToDec e.1) →
    (entries.map fun e => e.1).Nodup →
    entries.foldl (fun d e => dictSet d (natToDec e.1)
        ⟨floatValD e.2.1, floatValD e.2.2.1, floatValD e.2.2.2⟩) d =
      d ++ entries.map (fun e => (natToDec e.1,
        (⟨floatValD e.2.1, floatValD e.2.2.1, floatValD e.2.2.2⟩ :
          Vector))) := by
  intro entries
  induction entries with
  | nil => intro d _ _; simp
  | cons e es ih =>
    intro d hd hnodup
    rw [List.foldl_cons,
      dictSet_fresh _ _ _ (fun p hp => hd p hp e (by simp)),
      ih _ ?_ (List.nodup_cons.mp hnodup).2]
    · simp
    · intro p hp e' he'
      rcases List.mem_append.mp hp with h | h
      · exact hd p h e' (by simp [he'])
      · have hp1 : p.1 = natToDec e.1 := by
          simp at h
          rw [h]
        rw [hp1]
        intro hcontra
        have : e.1 = e'.1 := natToDec_injective hcontra
        have hmem : e.1 ∈ es.map (fun e => e.1) :=
          List.mem_map.mpr ⟨e', he', this.symm⟩
        exact (List.nodup_cons.mp hnodup).1
          (by simpa using hmem)

/-- C2: writing any list of distinct nodes with the mobility-file writer
and reading the file back with the mobility-file reader returns exactly
the written id-to-coordinate mapping, in order. -/
theorem mobility_round_trip (entries : List (Nat × PyStr × PyStr × PyStr))
    (hids : (entries.map fun e => e.1).Nodup)
    (htok : ∀ e ∈ entries, goodTok e.2.1 = true ∧ goodTok e.2.2.1 = true ∧
      goodTok e.2.2.2 = true) :
    parse_node_list (writeNodesToFile entries) =
      .ok (entries.map fun e => (natToDec e.1,
        (⟨floatValD e.2.1, floatValD e.2.2.1, floatValD e.2.2.2⟩ :
          Vector))) := by
  unfold parse_node_list
  rw [pyReadlines_writeNodes entries htok,
    pnlLoop_mobilityLines entries _ []
      (by rw [mobilityLines_length]; omega) htok,
    foldl_dictSet_mob entries [] (by simp) hids]
  simp

/-- C2 witness: the mobility file for node 0 at (100,100,100) and node 1
at (125,100,100) reads back as exactly that two-node mapping. -/
theorem mobility_round_trip_witness :
    parse_node_list (writeNodesToFile
      [(0, pstr "100", pstr "100", pstr "100"),
       (1, pstr "125", pstr "100", pstr "100")]) =
      .ok [(pstr "0", (⟨100, 100, 100⟩ : Vector)),
           (pstr "1", (⟨125, 100, 100⟩ : Vector))] := by
  rw [mobility_round_trip
    [(0, pstr "100", pstr "100", pstr "100"),
     (1, pstr "125", pstr "100", pstr "100")]
    (by decide) (by decide)]
  decide
